import Mathlib

/-!
Verification of the Path-Planning repository core (costmap inflation layer,
A* planner, D* Lite planner, agent polyline, viewer obstacle bookkeeping).

The C++ source operates on `float`; this development models float values by
exact rationals (`ℚ`), float infinity by `⊤` in `WithTop ℚ`, and the float
constant `1.41421356237f` / `std::sqrt(2.0f)` (the same 32-bit float value in
the source) by a single rational constant `sqrt2`.  Machine containers
(`std::vector`, `std::unordered_map`, `std::unordered_set`) are modelled by
lists, association lists and finite sets.  Loop constructs are modelled by
structural folds, or by fuelled recursion when the C++ loop has no structural
bound; every theorem below is independent of the particular fuel value.
-/

set_option maxHeartbeats 4000000

namespace PathPlanning

/-- Integer grid coordinate, mirroring glm::ivec2. -/
abbrev Cell : Type := ℤ × ℤ

/-- Continuous map coordinate, mirroring glm::vec2. -/
abbrev Point : Type := ℚ × ℚ

/-- Rational stand-in for the float value of sqrt(2) used by both planners
(the literal 1.41421356237f in the heuristics and std::sqrt(2.0f) in
traversalCost denote the same 32-bit float). -/
def sqrt2 : ℚ := 1.41421356237

/-- Centre of a grid cell, mirroring (x + 0.5f, y + 0.5f). -/
def center (c : Cell) : Point := ((c.1 : ℚ) + 1/2, (c.2 : ℚ) + 1/2)

/-! ## map::Grid (include/map/Map.h, src/map/Map.cpp) -/

/-- Row-major cost grid with metadata, mirroring map::Grid / map::Metadata
(resolution is irrelevant to every claim and omitted). -/
structure Grid where
  width : ℕ
  height : ℕ
  cells : List ℚ
  deriving DecidableEq

/-- Mirrors map::Metadata::cellCount. -/
def Grid.cellCount (g : Grid) : ℕ := g.width * g.height

/-- Well-formedness enforced by the map::Grid constructor: positive
dimensions and a matching cell count. -/
def Grid.WF (g : Grid) : Prop :=
  0 < g.width ∧ 0 < g.height ∧ g.cells.length = g.width * g.height

/-- Mirrors map::Grid::at (only ever used after a bounds check, so the
default value for an out-of-range access is irrelevant). -/
def Grid.valueAt (g : Grid) (c : Cell) : ℚ :=
  g.cells.getD (c.2.toNat * g.width + c.1.toNat) 0

/-! ## planner::utils (src/path/PlannerUtils.cpp) -/

/-- Mirrors planner::utils::isCellWithinBounds. -/
def isCellWithinBounds (g : Grid) (c : Cell) : Bool :=
  decide (0 ≤ c.1) && decide (0 ≤ c.2) &&
    decide (c.1 < (g.width : ℤ)) && decide (c.2 < (g.height : ℤ))

/-- Mirrors planner::utils::isTraversableCell: in bounds, not the missing
sentinel -1, and value < 1. -/
def isTraversableCell (g : Grid) (c : Cell) : Bool :=
  isCellWithinBounds g c && decide (g.valueAt c ≠ -1) && decide (g.valueAt c < 1)

/-- Mirrors planner::utils::traversalCost: base cost times (1 + clamped
cell weight). -/
def traversalCost (g : Grid) (c : Cell) (diagonal : Bool) : ℚ :=
  let v := g.valueAt c
  let clamped := if v < 0 then 0 else v
  let baseCost := if diagonal then sqrt2 else 1
  baseCost * (1 + clamped)

/-- Octile heuristic shared by both planners (the anonymous-namespace
heuristic functions in AStarPlanner.cpp and DStarLitePlanner.cpp). -/
def heuristic (a b : Cell) : ℚ :=
  let dx := |b.1 - a.1|
  let dy := |b.2 - a.2|
  let minDelta := min dx dy
  let maxDelta := max dx dy
  ((maxDelta - minDelta : ℤ) : ℚ) + sqrt2 * (minDelta : ℚ)

/-- Mirrors the state of map::CostmapLayer. -/
structure CostmapState where
  width : ℕ
  height : ℕ
  cells : List ℚ
  inflationMask : List Bool
  inflationCenters : List Point
  initialized : Bool
  deriving DecidableEq

/-- Mirrors CostmapLayer::initialize. -/
def costmapInitialize (w h : ℕ) : CostmapState :=
  { width := w, height := h
    cells := List.replicate (w * h) 0
    inflationMask := List.replicate (w * h) false
    inflationCenters := []
    initialized := true }

/-- Working triple (m_cells, m_inflationMask, m_inflationCenters) threaded
through the inflation loops. -/
abbrev InflState : Type := List ℚ × List Bool × List Point

/-- Closed integer interval as a list, used to mirror the for loops over
dx, dy in [-radiusCeil, radiusCeil]. -/
def intRange (lo hi : ℤ) : List ℤ :=
  (List.range (hi + 1 - lo).toNat).map (fun (i : ℕ) => lo + (i : ℤ))

/-- Body of the innermost inflation loop of CostmapLayer::update: processes
one candidate cell nIdx inside an obstacle disk. -/
def stampCell (base : List ℚ) (nIdx : ℕ) (nx ny : ℤ) (st : InflState) : InflState :=
  let baseValue := base.getD nIdx 0
  if 1 ≤ baseValue then st
  else if baseValue ≤ -1 then st
  else if 1 ≤ st.1.getD nIdx 0 then
    if st.2.1.getD nIdx false then st
    else (st.1, st.2.1.set nIdx true, st.2.2 ++ [((nx : ℚ) + 1/2, (ny : ℚ) + 1/2)])
  else
    let cells := st.1.set nIdx 1
    if st.2.1.getD nIdx false then (cells, st.2.1, st.2.2)
    else (cells, st.2.1.set nIdx true, st.2.2 ++ [((nx : ℚ) + 1/2, (ny : ℚ) + 1/2)])

/-- The dx/dy double loop of CostmapLayer::update stamping the disk around
one base obstacle at (baseX, baseY). -/
def inflateFromObstacle (w h : ℕ) (base : List ℚ) (r2 : ℚ) (rCeil : ℤ)
    (baseX baseY : ℤ) (st : InflState) : InflState :=
  (intRange (-rCeil) rCeil).foldl (fun st dy =>
    let ny := baseY + dy
    if ny < 0 ∨ (h : ℤ) ≤ ny then st
    else
      (intRange (-rCeil) rCeil).foldl (fun st dx =>
        let nx := baseX + dx
        if nx < 0 ∨ (w : ℤ) ≤ nx then st
        else if r2 < ((dx * dx + dy * dy : ℤ) : ℚ) then st
        else stampCell base (ny.toNat * w + nx.toNat) nx ny st) st) st

/-- The full inflation pass of CostmapLayer::update (after the error checks):
copy the base cells, clear mask and centers, then stamp a disk around every
base obstacle. -/
def costmapUpdateCore (w h : ℕ) (base : List ℚ) (r : ℚ) : InflState :=
  let st0 : InflState := (base, List.replicate (w * h) false, [])
  if w = 0 ∨ h = 0 then st0
  else
    let radius := max r 0
    if radius ≤ 0 then st0
    else
      let r2 := radius * radius
      let rCeil : ℤ := max 1 ⌈radius⌉
      (List.range base.length).foldl (fun st idx =>
        if base.getD idx 0 < 1 then st
        else inflateFromObstacle w h base r2 rCeil ((idx % w : ℕ) : ℤ) ((idx / w : ℕ) : ℤ) st) st0

/-- Mirrors CostmapLayer::update including its two usage-error checks; the
C++ method throws before any mutation, so an error leaves the layer
unchanged, which the Option models by producing no new state. -/
def costmapUpdate (s : CostmapState) (base : List ℚ) (r : ℚ) : Option CostmapState :=
  if ¬ s.initialized then none
  else if base.length ≠ s.width * s.height then none
  else
    let st := costmapUpdateCore s.width s.height base r
    some { s with cells := st.1, inflationMask := st.2.1, inflationCenters := st.2.2 }

/-! ### Generic loop-shape lemmas

The nested C++ for loops are defined above as nested folds; the lemmas here
rewrite them as a single fold over an explicit list of loop visits, which the
invariant proofs then consume. -/

/-- One stamp applied to a visited cell, indexed by its (nx, ny) coordinates. -/
def stampStep (w : ℕ) (base : List ℚ) (st : InflState) (p : ℤ × ℤ) : InflState :=
  stampCell base (p.2.toNat * w + p.1.toNat) p.1 p.2 st

/-- Cells visited by the dx loop of the inflation pass for a fixed dy. -/
def rowVisits (w : ℕ) (r2 : ℚ) (rCeil : ℤ) (baseX baseY dy : ℤ) : List (ℤ × ℤ) :=
  (intRange (-rCeil) rCeil).filterMap (fun dx =>
    if baseX + dx < 0 ∨ (w : ℤ) ≤ baseX + dx then none
    else if r2 < ((dx * dx + dy * dy : ℤ) : ℚ) then none
    else some (baseX + dx, baseY + dy))

/-- Cells visited by the dy/dx double loop around one base obstacle. -/
def diskVisits (w h : ℕ) (r2 : ℚ) (rCeil : ℤ) (baseX baseY : ℤ) : List (ℤ × ℤ) :=
  (intRange (-rCeil) rCeil).flatMap (fun dy =>
    if baseY + dy < 0 ∨ (h : ℤ) ≤ baseY + dy then []
    else rowVisits w r2 rCeil baseX baseY dy)

/-- Cells visited by the whole inflation pass, over every base obstacle. -/
def allVisits (w h : ℕ) (base : List ℚ) (r2 : ℚ) (rCeil : ℤ) : List (ℤ × ℤ) :=
  (List.range base.length).flatMap (fun idx =>
    if base.getD idx 0 < 1 then []
    else diskVisits w h r2 rCeil ((idx % w : ℕ) : ℤ) ((idx / w : ℕ) : ℤ))

/-- A cell is a valid inflation target when its base value lies strictly
between the missing sentinel -1 and the obstacle threshold 1. -/
def targOK (base : List ℚ) (n : ℕ) : Prop :=
  -1 < base.getD n 0 ∧ base.getD n 0 < 1

/-- Invariant tying an intermediate inflation state to the set Q of cells
stamped so far. -/
def StateSpec (w h : ℕ) (base : List ℚ) (Q : ℕ → Prop) (st : InflState) : Prop :=
  st.1.length = w * h ∧ st.2.1.length = w * h ∧
  (∀ n, Q n → targOK base n ∧ n < w * h) ∧
  (∀ n, Q n → st.1.getD n 0 = 1) ∧
  (∀ n, ¬ Q n → st.1.getD n 0 = base.getD n 0) ∧
  (∀ n, st.2.1.getD n false = true ↔ Q n)

/-- Mirrors the run of CostmapLayer::update as observed by the caller: a
usage error (throw) leaves the layer unchanged and reports failure. -/
def costmapUpdateRun (s : CostmapState) (base : List ℚ) (r : ℚ) : CostmapState × Bool :=
  match costmapUpdate s base r with
  | none => (s, false)
  | some s2 => (s2, true)

/-! ## Association-list and set helpers (std::unordered_map / unordered_set) -/

def alistLookup {α : Type} (l : List (Cell × α)) (c : Cell) : Option α :=
  match l.find? (fun e => decide (e.1 = c)) with
  | none => none
  | some e => some e.2

def alistUpsert {α : Type} (l : List (Cell × α)) (c : Cell) (v : α) : List (Cell × α) :=
  (c, v) :: l.filter (fun e => decide (e.1 ≠ c))

def alistErase {α : Type} (l : List (Cell × α)) (c : Cell) : List (Cell × α) :=
  l.filter (fun e => decide (e.1 ≠ c))

def insertCellSet (l : List Cell) (c : Cell) : List Cell :=
  if c ∈ l then l else l ++ [c]

/-! ## planner::PlannedPath and the shared neighbour offsets -/

/-- Mirrors planner::PlannedPath (the style field is always Polyline and
omitted). -/
structure PlannedPath where
  waypoints : List Point
  exploredCells : List Cell
  success : Bool
  deriving DecidableEq

/-- The 8-connected offset table used by both planners. -/
def neighborOffsets : List Cell :=
  [(1, 0), (-1, 0), (0, 1), (0, -1), (1, 1), (1, -1), (-1, 1), (-1, -1)]

/-! ## planner::AStarPlanner (AStarPlanner.cpp) -/

structure ANode where
  cell : Cell
  g : ℚ
  f : ℚ
  deriving DecidableEq

structure AState where
  openList : List ANode
  cameFrom : List (Cell × Cell)
  gScore : List (Cell × ℚ)
  closed : List Cell
  explored : List Cell

/-- Mirrors popping std::priority_queue under NodeCompare (smallest f on
top).  The order among equal-f entries is implementation defined in the C++
heap; the embedding fixes one such order (the earliest minimal entry) and no
theorem below depends on it. -/
def popMin : List ANode → Option (ANode × List ANode)
  | [] => none
  | a :: as =>
    match popMin as with
    | none => some (a, [])
    | some (b, bs) => if a.f ≤ b.f then some (a, as) else some (b, a :: bs)

/-- One neighbour visit of the A* expansion loop: bounds, traversability and
diagonal-corner checks, then the tentative-g relaxation.  The fScore map of
the source is written but never read back (the queue entries carry f), so it
is not part of the state. -/
def expandNeighbor (grid : Grid) (goalC : Cell) (cur : ANode) (st : AState) (o : Cell) :
    AState :=
  let nb : Cell := (cur.cell.1 + o.1, cur.cell.2 + o.2)
  if ¬ (isCellWithinBounds grid nb = true) ∨ ¬ (isTraversableCell grid nb = true) then st
  else
    let diag : Bool := decide (o.1 ≠ 0) && decide (o.2 ≠ 0)
    if diag = true ∧
        (¬ (isCellWithinBounds grid (cur.cell.1 + o.1, cur.cell.2) = true) ∨
         ¬ (isCellWithinBounds grid (cur.cell.1, cur.cell.2 + o.2) = true) ∨
         ¬ (isTraversableCell grid (cur.cell.1 + o.1, cur.cell.2) = true) ∨
         ¬ (isTraversableCell grid (cur.cell.1, cur.cell.2 + o.2) = true)) then st
    else
      let tentative := (alistLookup st.gScore cur.cell).getD 0 + traversalCost grid nb diag
      let improves : Bool :=
        match alistLookup st.gScore nb with
        | none => true
        | some gn => decide (tentative < gn)
      if improves = true then
        { st with
          cameFrom := alistUpsert st.cameFrom nb cur.cell
          gScore := alistUpsert st.gScore nb tentative
          openList := st.openList ++ [⟨nb, tentative, tentative + heuristic nb goalC⟩] }
      else st

/-- Mirrors the reconstructPath while loop following cameFrom to the root.
The C++ loop is unbounded; the fuel cameFrom.length + 1 is provably enough
(see chainParents_spec): parents carry a strictly smaller g score, so the
chain never revisits a key. -/
def chainParents : ℕ → List (Cell × Cell) → Cell → List Cell
  | 0, _, _ => []
  | fuel + 1, cf, c =>
    match alistLookup cf c with
    | none => [c]
    | some p => c :: chainParents fuel cf p

def reconstructPath (cf : List (Cell × Cell)) (c : Cell) : List Cell :=
  (chainParents (cf.length + 1) cf c).reverse

def astarInit (startC goalC : Cell) : AState :=
  { openList := [⟨startC, 0, heuristic startC goalC⟩]
    cameFrom := []
    gScore := [(startC, 0)]
    closed := []
    explored := [] }

/-- The A* main loop.  The C++ loop runs until the queue empties; at most
1 + 8 * cellCount entries are ever pushed (one initial push plus at most
eight per closed-set expansion), each iteration pops one entry, so the fuel
8 * cellCount + 2 used below always suffices; every theorem holds for all
fuel values. -/
def astarLoop (grid : Grid) (goalC : Cell) : ℕ → AState → Option (List Cell) × List Cell
  | 0, st => (none, st.explored)
  | fuel + 1, st =>
    match popMin st.openList with
    | none => (none, st.explored)
    | some (cur, rest) =>
      if cur.cell ∈ st.closed then astarLoop grid goalC fuel { st with openList := rest }
      else
        let st1 : AState :=
          { st with openList := rest, closed := cur.cell :: st.closed,
                    explored := st.explored ++ [cur.cell] }
        if cur.cell = goalC then (some (reconstructPath st1.cameFrom cur.cell), st1.explored)
        else astarLoop grid goalC fuel (neighborOffsets.foldl (expandNeighbor grid goalC cur) st1)

/-- Mirrors AStarPlanner::solve; returns (waypoints, exploredCells). -/
def astarSolve (grid : Grid) (startC goalC : Cell) : List Point × List Cell :=
  if ¬ (isCellWithinBounds grid startC = true) ∨ ¬ (isCellWithinBounds grid goalC = true) then
    ([], [])
  else if ¬ (isTraversableCell grid startC = true) ∨ ¬ (isTraversableCell grid goalC = true) then
    ([], [])
  else if startC = goalC then ([center startC], [startC])
  else
    match astarLoop grid goalC (8 * grid.cellCount + 2) (astarInit startC goalC) with
    | (some cells, explored) => (cells.map center, explored)
    | (none, explored) => ([], explored)

/-- Mirrors PathPlannerBase::computePath for the A* planner: solve, then set
success iff the waypoints are nonempty. -/
def astarComputePath (grid : Grid) (startC goalC : Cell) : PlannedPath :=
  let r := astarSolve grid startC goalC
  { waypoints := r.1, exploredCells := r.2, success := decide (r.1 ≠ []) }

/-! ## planner::DStarLitePlanner (DStarLitePlanner.cpp) -/

/-- Float values extended with infinity, as used for g, rhs and key parts. -/
abbrev QInf : Type := WithTop ℚ

structure DKey where
  k1 : QInf
  k2 : QInf
  deriving DecidableEq

structure DNodeData where
  gVal : QInf
  rhsVal : QInf
  deriving DecidableEq

/-- NodeData default-constructs with g = rhs = infinity. -/
def defaultNode : DNodeData := ⟨⊤, ⊤⟩

structure QueueEntry where
  cell : Cell
  key : DKey
  sequence : ℕ
  deriving DecidableEq

structure DState where
  map : Grid
  startCell : Cell
  goalCell : Cell
  lastStart : Cell
  hasMap : Bool
  hasStart : Bool
  hasGoal : Bool
  initialized : Bool
  keyModifier : ℚ
  queueSequence : ℕ
  openList : List QueueEntry
  nodeInfo : List (Cell × DNodeData)
  openTable : List (Cell × DKey)
  pendingUpdates : List Cell
  expandedNodes : List Cell
  deriving DecidableEq

/-- Planner state right after the DStarLitePlanner constructor. -/
def dslInit : DState :=
  { map := ⟨0, 0, []⟩, startCell := (0, 0), goalCell := (0, 0), lastStart := (0, 0),
    hasMap := false, hasStart := false, hasGoal := false, initialized := false,
    keyModifier := 0, queueSequence := 0, openList := [], nodeInfo := [],
    openTable := [], pendingUpdates := [], expandedNodes := [] }

def resetPlannerState (s : DState) : DState :=
  { s with openList := [], nodeInfo := [], openTable := [], expandedNodes := [],
           keyModifier := 0, queueSequence := 0, initialized := false }

/-- Mirrors DStarLitePlanner::setMap: adopt, full reset on dimension change,
or diff blocked states into pendingUpdates. -/
def dslSetMap (s : DState) (grid : Grid) : DState :=
  if s.hasMap = false then
    { (resetPlannerState { s with map := grid, hasMap := true }) with pendingUpdates := [] }
  else if s.map.width ≠ grid.width ∨ s.map.height ≠ grid.height then
    resetPlannerState { s with map := grid, pendingUpdates := [], hasMap := true }
  else
    let total := min s.map.cells.length grid.cells.length
    let pending := (List.range total).foldl (fun acc idx =>
      let oldBlocked : Bool :=
        decide (1 ≤ s.map.cells.getD idx 0) || decide (s.map.cells.getD idx 0 = -1)
      let newBlocked : Bool :=
        decide (1 ≤ grid.cells.getD idx 0) || decide (grid.cells.getD idx 0 = -1)
      if oldBlocked ≠ newBlocked then
        insertCellSet acc (((idx % grid.width : ℕ) : ℤ), ((idx / grid.width : ℕ) : ℤ))
      else acc) s.pendingUpdates
    { s with map := grid, hasMap := true, pendingUpdates := pending }

/-- Mirrors DStarLitePlanner::setStart for a Cell position (a Point position
throws and leaves the planner unchanged). -/
def dslSetStart (s : DState) (c : Cell) : DState :=
  if s.hasMap = false then
    { s with startCell := c, lastStart := c, hasStart := true }
  else
    let s1 :=
      if s.hasStart = true then
        { s with keyModifier := s.keyModifier + heuristic s.lastStart c }
      else s
    let s2 := { s1 with startCell := c }
    let s3 := if s2.initialized = false then { s2 with lastStart := c } else s2
    { s3 with hasStart := true }

def dslSetGoal (s : DState) (c : Cell) : DState :=
  { s with goalCell := c, hasGoal := true, initialized := false }

def dslG (s : DState) (c : Cell) : QInf :=
  match alistLookup s.nodeInfo c with
  | none => ⊤
  | some d => d.gVal

def dslRhs (s : DState) (c : Cell) : QInf :=
  match alistLookup s.nodeInfo c with
  | none => ⊤
  | some d => d.rhsVal

def dslSetG (s : DState) (c : Cell) (v : QInf) : DState :=
  let d := (alistLookup s.nodeInfo c).getD defaultNode
  { s with nodeInfo := alistUpsert s.nodeInfo c { d with gVal := v } }

def dslSetRhs (s : DState) (c : Cell) (v : QInf) : DState :=
  let d := (alistLookup s.nodeInfo c).getD defaultNode
  { s with nodeInfo := alistUpsert s.nodeInfo c { d with rhsVal := v } }

/-- Mirrors DStarLitePlanner::keyLess (lexicographic on (k1, k2)). -/
def keyLessB (a b : DKey) : Bool :=
  if decide (a.k1 < b.k1) then true
  else if decide (b.k1 < a.k1) then false
  else decide (a.k2 < b.k2)

def calculateKey (s : DState) (c : Cell) : DKey :=
  let m := min (dslG s c) (dslRhs s c)
  ⟨m + ((heuristic s.startCell c : ℚ) : QInf) + ((s.keyModifier : ℚ) : QInf), m⟩

def pushOpen (s : DState) (c : Cell) (k : DKey) : DState :=
  { s with openList := s.openList ++ [⟨c, k, s.queueSequence⟩],
           queueSequence := s.queueSequence + 1,
           openTable := alistUpsert s.openTable c k }

/-- Mirrors DStarLitePlanner::getNeighbors with the diagonal corner rule. -/
def dslGetNeighbors (s : DState) (c : Cell) : List Cell :=
  neighborOffsets.filterMap (fun o =>
    let cand : Cell := (c.1 + o.1, c.2 + o.2)
    if ¬ (isCellWithinBounds s.map cand = true) then none
    else if (decide (o.1 ≠ 0) && decide (o.2 ≠ 0)) = true ∧
        (¬ (isCellWithinBounds s.map (c.1 + o.1, c.2) = true) ∨
         ¬ (isCellWithinBounds s.map (c.1, c.2 + o.2) = true) ∨
         ¬ (isTraversableCell s.map (c.1 + o.1, c.2) = true) ∨
         ¬ (isTraversableCell s.map (c.1, c.2 + o.2) = true)) then none
    else if ¬ (isTraversableCell s.map cand = true) then none
    else some cand)

/-- Mirrors DStarLitePlanner::edgeCost. -/
def dslEdgeCost (s : DState) (src dst : Cell) : QInf :=
  if ¬ (isCellWithinBounds s.map dst = true) then ⊤
  else
    let diagonal : Bool := decide (src.1 ≠ dst.1) && decide (src.2 ≠ dst.2)
    if diagonal = true ∧
        (¬ (isCellWithinBounds s.map (src.1, dst.2) = true) ∨
         ¬ (isCellWithinBounds s.map (dst.1, src.2) = true) ∨
         ¬ (isTraversableCell s.map (src.1, dst.2) = true) ∨
         ¬ (isTraversableCell s.map (dst.1, src.2) = true)) then ⊤
    else if ¬ (isTraversableCell s.map dst = true) then ⊤
    else ((traversalCost s.map dst diagonal : ℚ) : QInf)

def initializePlanner (s : DState) : DState :=
  let s1 := resetPlannerState s
  let s2 := dslSetRhs s1 s1.goalCell 0
  let s3 := pushOpen s2 s2.goalCell (calculateKey s2 s2.goalCell)
  { s3 with lastStart := s3.startCell, initialized := true }

/-- Mirrors DStarLitePlanner::updateVertex. -/
def updateVertex (s : DState) (c : Cell) : DState :=
  let s1 :=
    if c = s.goalCell then dslSetRhs s c 0
    else
      let minRhs := (dslGetNeighbors s c).foldl (fun acc nb =>
        let cost := dslEdgeCost s c nb
        if cost = ⊤ then acc
        else min acc (cost + dslG s nb)) ⊤
      dslSetRhs s c minRhs
  if dslG s1 c ≠ dslRhs s1 c then pushOpen s1 c (calculateKey s1 c)
  else { s1 with openTable := alistErase s1.openTable c }

/-- Mirrors DStarLitePlanner::applyPendingUpdates. -/
def applyPendingUpdates (s : DState) : DState :=
  if s.pendingUpdates = [] then s
  else
    let toProcess := s.pendingUpdates.flatMap (fun c => c :: dslGetNeighbors s c)
    toProcess.foldl updateVertex { s with pendingUpdates := [] }

/-- Pop of the open priority queue: an entry with the minimal key in the
keyLess order (ties resolved to the earliest entry, as for A*). -/
def popOpenMin : List QueueEntry → Option (QueueEntry × List QueueEntry)
  | [] => none
  | e :: es =>
    match popOpenMin es with
    | none => some (e, [])
    | some (m, ms) => if keyLessB m.key e.key then some (m, e :: ms) else some (e, es)

/-- Mirrors the computeShortestPath while loop; the source loop has no
structural bound, so the embedding is fuelled and every theorem below holds
for all fuel values. -/
def computeShortestPathAux : ℕ → DState → DState
  | 0, s => s
  | fuel + 1, s =>
    match popOpenMin s.openList with
    | none => s
    | some (top, rest) =>
      let stale : Bool :=
        match alistLookup s.openTable top.cell with
        | none => true
        | some k => decide (k ≠ top.key)
      if stale = true then computeShortestPathAux fuel { s with openList := rest }
      else if ¬ (keyLessB top.key (calculateKey s s.startCell) = true) ∧
          dslRhs s s.startCell = dslG s s.startCell then s
      else
        let s1 := { s with openList := rest, openTable := alistErase s.openTable top.cell }
        let s2 :=
          if top.cell ∈ s1.expandedNodes then s1
          else { s1 with expandedNodes := s1.expandedNodes ++ [top.cell] }
        if dslRhs s2 top.cell < dslG s2 top.cell then
          let s3 := dslSetG s2 top.cell (dslRhs s2 top.cell)
          computeShortestPathAux fuel ((dslGetNeighbors s3 top.cell).foldl updateVertex s3)
        else
          let s3 := dslSetG s2 top.cell ⊤
          let s4 := updateVertex s3 top.cell
          computeShortestPathAux fuel ((dslGetNeighbors s4 top.cell).foldl updateVertex s4)

def computeShortestPath (fuel : ℕ) (s : DState) : DState :=
  computeShortestPathAux fuel { s with expandedNodes := [] }

def isValidStartGoal (s : DState) : Bool :=
  if s.hasMap = false ∨ s.hasStart = false ∨ s.hasGoal = false then false
  else if ¬ (isCellWithinBounds s.map s.startCell = true) ∨
      ¬ (isCellWithinBounds s.map s.goalCell = true) then false
  else if ¬ (isTraversableCell s.map s.goalCell = true) then false
  else if s.startCell ≠ s.goalCell ∧ ¬ (isTraversableCell s.map s.startCell = true) then false
  else true

/-- One step of the greedy path reconstruction: the neighbour minimising
edgeCost + g, or none when no finite progress is possible. -/
def greedyStep (s : DState) (current : Cell) : Option Cell :=
  let best := (dslGetNeighbors s current).foldl (fun (acc : QInf × Cell) nb =>
    let cost := dslEdgeCost s current nb
    if cost = ⊤ then acc
    else
      let score := cost + dslG s nb
      if score < acc.1 then (score, nb) else acc) (⊤, current)
  if best.2 = current ∨ best.1 = ⊤ then none else some best.2

/-- Mirrors the bounded greedy reconstruction loop of computePath, including
the final cells.back() == goal check. -/
def greedyWalk (s : DState) : ℕ → Cell → List Cell → Option (List Cell)
  | 0, current, acc => if current = s.goalCell then some acc else none
  | fuel + 1, current, acc =>
    if current = s.goalCell then some acc
    else
      match greedyStep s current with
      | none => none
      | some next => greedyWalk s fuel next (acc ++ [next])

/-- Fuel used for computeShortestPath when invoked from computePath; ample
for the terminating C++ loop, and every theorem is independent of it. -/
def cspFuel (s : DState) : ℕ :=
  (s.map.cellCount + 2) * (s.map.cellCount + 2) * (s.map.cellCount + 2) +
    s.openList.length + 1

/-- Mirrors DStarLitePlanner::computePath, returning the mutated planner
state together with the produced path. -/
def dslComputePath (s : DState) : DState × PlannedPath :=
  if ¬ (isValidStartGoal s = true) then
    (s, { waypoints := [], exploredCells := [], success := false })
  else
    let s1 := if s.initialized = false then initializePlanner s else s
    let s2 :=
      if s1.lastStart ≠ s1.startCell then
        { s1 with keyModifier := s1.keyModifier + heuristic s1.lastStart s1.startCell,
                  lastStart := s1.startCell }
      else s1
    let s3 := applyPendingUpdates s2
    let s4 := updateVertex s3 s3.startCell
    let s5 := computeShortestPath (cspFuel s4) s4
    if dslRhs s5 s5.startCell = ⊤ then
      (s5, { waypoints := [], exploredCells := s5.expandedNodes, success := false })
    else
      match greedyWalk s5 (s5.map.cellCount + 1) s5.startCell [s5.startCell] with
      | none => (s5, { waypoints := [], exploredCells := [], success := false })
      | some cells =>
        (s5, { waypoints := cells.map center, exploredCells := s5.expandedNodes,
               success := true })

/-- Public operations of the D* Lite planner, for stating invariants over
arbitrary operation sequences. -/
inductive DOp where
  | setMapOp : Grid → DOp
  | setStartOp : Cell → DOp
  | setGoalOp : Cell → DOp
  | computePathOp : DOp

def applyOp (s : DState) : DOp → DState
  | DOp.setMapOp g => dslSetMap s g
  | DOp.setStartOp c => dslSetStart s c
  | DOp.setGoalOp c => dslSetGoal s c
  | DOp.computePathOp => (dslComputePath s).1

/-! ## agent::SimpleAStarAgent (SimpleAStarAgent.cpp) -/

structure AgentState where
  waypoints : List Point
  segmentLengths : List ℚ
  totalLength : ℚ
  distanceTravelled : ℚ
  currentPosition : Point
  pathAvailable : Bool
  playing : Bool
  deriving DecidableEq

/-- The for loop of getTravelledPolyline: walk whole segments while the
remaining distance allows, or emit the interpolated point and stop; returns
the grown history and the remaining distance. -/
def travelLoop (a : AgentState) (i : ℕ) (remaining : ℚ) (acc : List Point) :
    List Point × ℚ :=
  if i < a.segmentLengths.length then
    let segLen := a.segmentLengths.getD i 0
    if segLen ≤ 1 / 1000000 then
      travelLoop a (i + 1) remaining (acc ++ [a.waypoints.getD (i + 1) (0, 0)])
    else if segLen ≤ remaining then
      travelLoop a (i + 1) (remaining - segLen) (acc ++ [a.waypoints.getD (i + 1) (0, 0)])
    else
      let t := max 0 (min (remaining / segLen) 1)
      let wi := a.waypoints.getD i (0, 0)
      let wj := a.waypoints.getD (i + 1) (0, 0)
      (acc ++ [(wi.1 + t * (wj.1 - wi.1), wi.2 + t * (wj.2 - wi.2))], 0)
  else (acc, remaining)
termination_by a.segmentLengths.length - i

/-- The history list built by the main branch of getTravelledPolyline before
the final current-position append. -/
def coveredPolyline (a : AgentState) : List Point :=
  let remaining0 := max 0 (min a.distanceTravelled a.totalLength)
  let r := travelLoop a 0 remaining0 [a.waypoints.getD 0 (0, 0)]
  if 0 < r.2 ∧ 2 ≤ a.waypoints.length then r.1 ++ [a.waypoints.getLastD (0, 0)] else r.1

/-- Mirrors SimpleAStarAgent::getTravelledPolyline. -/
def getTravelledPolyline (a : AgentState) : List Point :=
  if ¬ (a.pathAvailable = true) ∨ a.waypoints = [] then []
  else if a.segmentLengths = [] ∨ a.distanceTravelled ≤ 0 then
    [a.waypoints.getD 0 (0, 0), a.currentPosition]
  else
    let hist := coveredPolyline a
    if hist = [] ∨ hist.getLastD (0, 0) ≠ a.currentPosition then hist ++ [a.currentPosition]
    else hist

/-! ## Viewer obstacle bookkeeping (Grid.cpp, InputHandler.cpp) -/

inductive ObstacleVisibility where
  | visible : ObstacleVisibility
  | hidden : ObstacleVisibility
  deriving DecidableEq

/-- The viewer-side state touched by the user add-obstacle operation: the
marker cells and obstacle sets of viewer Grid, plus InputHandler runtime
cells and the planner-visible grid. -/
structure ViewerState where
  width : ℕ
  height : ℕ
  startCell : Cell
  goalCell : Cell
  visibleObstacles : Finset Cell
  hiddenObstacles : Finset Cell
  runtimeCells : List ℚ
  plannerGrid : Grid
  lastPaintedCell : Cell

/-- Mirrors Grid::containsCell. -/
def containsCell (v : ViewerState) (c : Cell) : Bool :=
  decide (0 ≤ c.1) && decide (0 ≤ c.2) &&
    decide (c.1 < (v.width : ℤ)) && decide (c.2 < (v.height : ℤ))

/-- Mirrors Grid::addDynamicObstacle (cell colouring is display-only and not
modelled). -/
def addDynamicObstacle (v : ViewerState) (c : Cell) (vis : ObstacleVisibility) :
    ViewerState × Bool :=
  if ¬ (containsCell v c = true) then (v, false)
  else if c = v.startCell ∨ c = v.goalCell then (v, false)
  else if c ∈ v.visibleObstacles ∨ c ∈ v.hiddenObstacles then (v, false)
  else
    match vis with
    | ObstacleVisibility.visible => ({ v with visibleObstacles := insert c v.visibleObstacles }, true)
    | ObstacleVisibility.hidden => ({ v with hiddenObstacles := insert c v.hiddenObstacles }, true)

/-- Mirrors InputHandler::addObstacleFromInput: record the painted cell, then
insert the obstacle as hidden; runtime cells and the planner grid are never
touched on this path. -/
def addObstacleFromInput (v : ViewerState) (c : Cell) : ViewerState × Bool :=
  addDynamicObstacle { v with lastPaintedCell := c } c ObstacleVisibility.hidden

/-! ## Derived notions used by theorem statements -/

/-- The grid cell whose centre a waypoint is (waypoints are cell centres). -/
def cellOf (p : Point) : Cell := (⌊p.1⌋, ⌊p.2⌋)

/-- The diagonal corner rule on two consecutive waypoints: a diagonal step
requires both squeeze cells to be traversable (traversable implies
in-bounds). -/
def DiagOK (g : Grid) (p q : Point) : Prop :=
  ((cellOf q).1 ≠ (cellOf p).1 ∧ (cellOf q).2 ≠ (cellOf p).2) →
    (isTraversableCell g ((cellOf q).1, (cellOf p).2) = true ∧
     isTraversableCell g ((cellOf p).1, (cellOf q).2) = true)

/-- A single legal A* move from a to b: b traversable, Chebyshev distance 1,
and the diagonal corner rule. -/
def LegalStep (g : Grid) (a b : Cell) : Prop :=
  isTraversableCell g b = true ∧ max |b.1 - a.1| |b.2 - a.2| = 1 ∧
  ((b.1 ≠ a.1 ∧ b.2 ≠ a.2) →
    (isTraversableCell g (b.1, a.2) = true ∧ isTraversableCell g (a.1, b.2) = true))

/-- Loop invariant of the A* search state. -/
structure AInv (g : Grid) (startC : Cell) (st : AState) : Prop where
  gScore_start : alistLookup st.gScore startC = some 0
  gScore_nonneg : ∀ c q, alistLookup st.gScore c = some q → 0 ≤ q
  cf_legal : ∀ c p, alistLookup st.cameFrom c = some p → LegalStep g p c
  cf_g : ∀ c p, alistLookup st.cameFrom c = some p →
    ∃ qc qp, alistLookup st.gScore c = some qc ∧ alistLookup st.gScore p = some qp ∧
      qp + 1 ≤ qc
  cf_parent : ∀ c p, alistLookup st.cameFrom c = some p →
    p = startC ∨ (alistLookup st.cameFrom p).isSome = true
  cf_start : alistLookup st.cameFrom startC = none
  open_covered : ∀ n ∈ st.openList,
    n.cell = startC ∨ (alistLookup st.cameFrom n.cell).isSome = true
  open_g : ∀ n ∈ st.openList, (alistLookup st.gScore n.cell).isSome = true

/-- Equality of the planner configuration fields that the search phases of
computePath never touch. -/
def SameCore (s1 s2 : DState) : Prop :=
  s1.map = s2.map ∧ s1.startCell = s2.startCell ∧ s1.goalCell = s2.goalCell ∧
  s1.lastStart = s2.lastStart ∧ s1.hasMap = s2.hasMap ∧ s1.hasStart = s2.hasStart ∧
  s1.hasGoal = s2.hasGoal ∧ s1.initialized = s2.initialized ∧
  s1.keyModifier = s2.keyModifier

/-! ## Concrete states used by witnesses and counterexamples -/

/-- An all-free square grid. -/
def gridFree (w h : ℕ) : Grid := ⟨w, h, List.replicate (w * h) 0⟩

/-- Planner state reached by setMap (5x5 free), setStart (0,0), setStart
(3,0): the second setStart raises keyModifier to 3. -/
def cexKmState : DState :=
  applyOp (applyOp (applyOp dslInit (DOp.setMapOp (gridFree 5 5)))
    (DOp.setStartOp (0, 0))) (DOp.setStartOp (3, 0))

/-- Agent state right after onNewPath on a two-waypoint horizontal path
(distance_travelled = 0, current position at the first waypoint; the same
duplicate arises for any freshly delivered path, whatever the coordinates). -/
def cexAgent : AgentState :=
  { waypoints := [(0, 0), (1, 0)], segmentLengths := [1], totalLength := 1,
    distanceTravelled := 0, currentPosition := (0, 0), pathAvailable := true,
    playing := true }

/-- A costmap layer that was never initialized. -/
def uninitCostmap : CostmapState :=
  { width := 1, height := 1, cells := [], inflationMask := [], inflationCenters := [],
    initialized := false }

/-- A 1x1 D* Lite planner configured with start = goal = (0,0). -/
def demoDsl : DState :=
  dslSetGoal (dslSetStart (dslSetMap dslInit (gridFree 1 1)) (0, 0)) (0, 0)

/-- A small viewer state with empty obstacle sets. -/
def demoViewer : ViewerState :=
  { width := 3, height := 3, startCell := (0, 0), goalCell := (2, 2),
    visibleObstacles := ∅, hiddenObstacles := ∅, runtimeCells := List.replicate 9 0,
    plannerGrid := gridFree 3 3, lastPaintedCell := (0, 0) }

/-! ## Theorems -/

theorem heuristic_nonneg (a b : Cell) : 0 ≤ heuristic a b := by
  unfold heuristic
  have h1 : (0 : ℤ) ≤ min |b.1 - a.1| |b.2 - a.2| := le_min (abs_nonneg _) (abs_nonneg _)
  have h2 : min |b.1 - a.1| |b.2 - a.2| ≤ max |b.1 - a.1| |b.2 - a.2| :=
    min_le_max
  have hs : (0 : ℚ) ≤ sqrt2 := by norm_num [sqrt2]
  have : (0 : ℚ) ≤ ((max |b.1 - a.1| |b.2 - a.2| - min |b.1 - a.1| |b.2 - a.2| : ℤ) : ℚ) := by
    exact_mod_cast sub_nonneg.mpr h2
  have : (0 : ℚ) ≤ sqrt2 * ((min |b.1 - a.1| |b.2 - a.2| : ℤ) : ℚ) := by
    apply mul_nonneg hs
    exact_mod_cast h1
  positivity

theorem heuristic_self (a : Cell) : heuristic a a = 0 := by
  simp [heuristic]

/-- Any traversal cost is at least 1: the base cost is 1 or sqrt2 ≥ 1 and the
clamped weight is nonnegative. -/
theorem one_le_traversalCost (g : Grid) (c : Cell) (d : Bool) :
    1 ≤ traversalCost g c d := by
  unfold traversalCost
  have hs : (1 : ℚ) ≤ sqrt2 := by norm_num [sqrt2]
  by_cases hv : g.valueAt c < 0
  · cases d <;> simp only [hv, if_true, if_false, Bool.false_eq_true, reduceIte] <;> nlinarith
  · have hv0 : 0 ≤ g.valueAt c := le_of_not_lt hv
    cases d <;> simp only [hv, if_true, if_false, Bool.false_eq_true, reduceIte] <;> nlinarith

/-! ## map::CostmapLayer (src/map/CostmapLayer.cpp) -/

theorem foldl_eq_foldl_filterMap {α β σ : Type} (l : List α) (body : σ → α → σ)
    (sel : α → Option β) (f : σ → β → σ)
    (hb : ∀ st a, body st a = match sel a with | none => st | some b => f st b) :
    ∀ st, l.foldl body st = (l.filterMap sel).foldl f st := by
  induction l with
  | nil => intro st; simp
  | cons a l ih =>
    intro st
    rw [List.foldl_cons, List.filterMap_cons, hb]
    cases h : sel a with
    | none => simp only []; exact ih st
    | some b => simp only []; exact ih (f st b)

theorem foldl_eq_foldl_flatMap {α β σ : Type} (l : List α) (body : σ → α → σ)
    (inner : α → List β) (f : σ → β → σ)
    (hb : ∀ st a, body st a = (inner a).foldl f st) :
    ∀ st, l.foldl body st = (l.flatMap inner).foldl f st := by
  induction l with
  | nil => intro st; simp
  | cons a l ih =>
    intro st
    rw [List.foldl_cons, List.flatMap_cons, List.foldl_append, hb]
    exact ih _

theorem mem_intRange {lo hi x : ℤ} : x ∈ intRange lo hi ↔ lo ≤ x ∧ x ≤ hi := by
  unfold intRange
  constructor
  · intro hx
    obtain ⟨i, hi2, rfl⟩ := List.mem_map.mp hx
    have h3 := List.mem_range.mp hi2
    omega
  · intro h
    refine List.mem_map.mpr ⟨(x - lo).toNat, List.mem_range.mpr (by omega), by omega⟩

theorem getD_set_self {α : Type} {l : List α} {i : ℕ} (h : i < l.length) (a d : α) :
    (l.set i a).getD i d = a := by
  rw [List.getD_eq_getElem?_getD, List.getElem?_set_self (by simpa using h)]
  rfl

theorem getD_set_ne {α : Type} {l : List α} {i n : ℕ} (h : n ≠ i) (a d : α) :
    (l.set i a).getD n d = l.getD n d := by
  rw [List.getD_eq_getElem?_getD, List.getElem?_set_ne (fun he => h he.symm),
    ← List.getD_eq_getElem?_getD]

theorem getD_replicate {α : Type} {n i : ℕ} {a d : α} :
    (List.replicate n a).getD i d = if i < n then a else d := by
  by_cases h : i < n
  · rw [List.getD_eq_getElem?_getD, List.getElem?_replicate, if_pos h]
    simp [h]
  · rw [List.getD_eq_getElem?_getD, List.getElem?_replicate, if_neg h]
    simp [h]

/-! ### Visit-list view of the inflation loops -/

theorem inflateFromObstacle_eq_foldl (w h : ℕ) (base : List ℚ) (r2 : ℚ) (rCeil : ℤ)
    (baseX baseY : ℤ) (st : InflState) :
    inflateFromObstacle w h base r2 rCeil baseX baseY st
      = (diskVisits w h r2 rCeil baseX baseY).foldl (stampStep w base) st := by
  unfold inflateFromObstacle diskVisits
  apply foldl_eq_foldl_flatMap
  intro st dy
  by_cases hy : baseY + dy < 0 ∨ (h : ℤ) ≤ baseY + dy
  · simp only [hy, if_true, reduceIte, List.foldl_nil]
  · simp only [hy, if_false, reduceIte]
    apply foldl_eq_foldl_filterMap _ _
      (fun dx =>
        if baseX + dx < 0 ∨ (w : ℤ) ≤ baseX + dx then none
        else if r2 < ((dx * dx + dy * dy : ℤ) : ℚ) then none
        else some (baseX + dx, baseY + dy))
    intro st dx
    by_cases hx : baseX + dx < 0 ∨ (w : ℤ) ≤ baseX + dx
    · simp only [hx, if_true, reduceIte]
    · by_cases hd : r2 < ((dx * dx + dy * dy : ℤ) : ℚ)
      · simp only [hx, hd, if_true, if_false, reduceIte]
      · simp only [hx, hd, if_true, if_false, reduceIte, stampStep]

theorem costmapUpdateCore_eq_foldl (w h : ℕ) (base : List ℚ) (r : ℚ)
    (hw : w ≠ 0) (hh : h ≠ 0) (hr : ¬ max r 0 ≤ 0) :
    costmapUpdateCore w h base r
      = (allVisits w h base (max r 0 * max r 0) (max 1 ⌈max r 0⌉)).foldl
          (stampStep w base) (base, List.replicate (w * h) false, []) := by
  unfold costmapUpdateCore allVisits
  simp only [hw, hh, or_self, if_false, hr, reduceIte]
  apply foldl_eq_foldl_flatMap
  intro st idx
  by_cases hb : base.getD idx 0 < 1
  · simp only [hb, if_true, reduceIte, List.foldl_nil]
  · simp only [hb, if_false, reduceIte]
    exact inflateFromObstacle_eq_foldl w h base _ _ _ _ st

theorem mem_rowVisits {w : ℕ} {r2 : ℚ} {rCeil baseX baseY dy : ℤ} {p : ℤ × ℤ} :
    p ∈ rowVisits w r2 rCeil baseX baseY dy ↔
      ∃ dx, -rCeil ≤ dx ∧ dx ≤ rCeil ∧ 0 ≤ baseX + dx ∧ baseX + dx < (w : ℤ) ∧
        ((dx * dx + dy * dy : ℤ) : ℚ) ≤ r2 ∧ p = (baseX + dx, baseY + dy) := by
  unfold rowVisits
  rw [List.mem_filterMap]
  constructor
  · rintro ⟨dx, hdx, hsel⟩
    rw [mem_intRange] at hdx
    by_cases hx : baseX + dx < 0 ∨ (w : ℤ) ≤ baseX + dx
    · rw [if_pos hx] at hsel
      exact Option.noConfusion hsel
    · rw [if_neg hx] at hsel
      by_cases hd : r2 < ((dx * dx + dy * dy : ℤ) : ℚ)
      · rw [if_pos hd] at hsel
        exact Option.noConfusion hsel
      · rw [if_neg hd, Option.some_inj] at hsel
        exact ⟨dx, hdx.1, hdx.2, by omega, by omega, le_of_not_lt hd, hsel.symm⟩
  · rintro ⟨dx, h1, h2, h3, h4, h5, rfl⟩
    refine ⟨dx, mem_intRange.mpr ⟨h1, h2⟩, ?_⟩
    have hx : ¬ (baseX + dx < 0 ∨ (w : ℤ) ≤ baseX + dx) := by omega
    rw [if_neg hx, if_neg (not_lt.mpr h5)]

theorem mem_diskVisits {w h : ℕ} {r2 : ℚ} {rCeil baseX baseY : ℤ} {p : ℤ × ℤ} :
    p ∈ diskVisits w h r2 rCeil baseX baseY ↔
      ∃ dx dy, -rCeil ≤ dx ∧ dx ≤ rCeil ∧ -rCeil ≤ dy ∧ dy ≤ rCeil ∧
        0 ≤ baseX + dx ∧ baseX + dx < (w : ℤ) ∧ 0 ≤ baseY + dy ∧ baseY + dy < (h : ℤ) ∧
        ((dx * dx + dy * dy : ℤ) : ℚ) ≤ r2 ∧ p = (baseX + dx, baseY + dy) := by
  unfold diskVisits
  rw [List.mem_flatMap]
  constructor
  · rintro ⟨dy, hdy, hp⟩
    rw [mem_intRange] at hdy
    by_cases hy : baseY + dy < 0 ∨ (h : ℤ) ≤ baseY + dy
    · rw [if_pos hy] at hp
      exact absurd hp (List.not_mem_nil _)
    · rw [if_neg hy] at hp
      obtain ⟨dx, h1, h2, h3, h4, h5, rfl⟩ := mem_rowVisits.mp hp
      exact ⟨dx, dy, h1, h2, hdy.1, hdy.2, h3, h4, by omega, by omega, h5, rfl⟩
  · rintro ⟨dx, dy, h1, h2, h3, h4, h5, h6, h7, h8, h9, rfl⟩
    refine ⟨dy, mem_intRange.mpr ⟨h3, h4⟩, ?_⟩
    have hy : ¬ (baseY + dy < 0 ∨ (h : ℤ) ≤ baseY + dy) := by omega
    rw [if_neg hy]
    exact mem_rowVisits.mpr ⟨dx, h1, h2, h5, h6, h9, rfl⟩

theorem mem_allVisits {w h : ℕ} {base : List ℚ} {r2 : ℚ} {rCeil : ℤ} {p : ℤ × ℤ} :
    p ∈ allVisits w h base r2 rCeil ↔
      ∃ k < base.length, 1 ≤ base.getD k 0 ∧
        p ∈ diskVisits w h r2 rCeil ((k % w : ℕ) : ℤ) ((k / w : ℕ) : ℤ) := by
  unfold allVisits
  rw [List.mem_flatMap]
  constructor
  · rintro ⟨k, hk, hp⟩
    rw [List.mem_range] at hk
    by_cases hb : base.getD k 0 < 1
    · rw [if_pos hb] at hp
      exact absurd hp (List.not_mem_nil _)
    · rw [if_neg hb] at hp
      exact ⟨k, hk, le_of_not_lt hb, hp⟩
  · rintro ⟨k, hk, hb, hp⟩
    refine ⟨k, List.mem_range.mpr hk, ?_⟩
    rw [if_neg (not_lt.mpr hb)]
    exact hp

/-! ### Pointwise characterisation of the inflation pass -/

theorem StateSpec_congr {w h : ℕ} {base : List ℚ} {Q Q' : ℕ → Prop} {st : InflState}
    (hq : ∀ n, Q n ↔ Q' n) (hs : StateSpec w h base Q st) :
    StateSpec w h base Q' st := by
  obtain ⟨h1, h2, h3, h4, h5, h6⟩ := hs
  exact ⟨h1, h2, fun n hn => h3 n ((hq n).mpr hn), fun n hn => h4 n ((hq n).mpr hn),
    fun n hn => h5 n (fun hQ => hn ((hq n).mp hQ)), fun n => (h6 n).trans (hq n)⟩

theorem stampStep_spec {w h : ℕ} {base : List ℚ} {Q : ℕ → Prop} {st : InflState}
    {p : ℤ × ℤ}
    (hp : 0 ≤ p.1 ∧ p.1 < (w : ℤ) ∧ 0 ≤ p.2 ∧ p.2 < (h : ℤ))
    (hs : StateSpec w h base Q st) :
    StateSpec w h base
      (fun n => Q n ∨ (n = p.2.toNat * w + p.1.toNat ∧ targOK base n))
      (stampStep w base st p) := by
  obtain ⟨hlen1, hlen2, hQdom, hQ1, hQ0, hmask⟩ := hs
  set n0 := p.2.toNat * w + p.1.toNat with hn0
  have hn0lt : n0 < w * h := by
    have h1 : p.1.toNat < w := by omega
    have h2 : p.2.toNat < h := by omega
    calc p.2.toNat * w + p.1.toNat < p.2.toNat * w + w := by omega
    _ = (p.2.toNat + 1) * w := by ring
    _ ≤ h * w := Nat.mul_le_mul_right w (by omega)
    _ = w * h := Nat.mul_comm h w
  unfold stampStep stampCell
  by_cases hge : 1 ≤ base.getD n0 0
  · rw [if_pos hge]
    refine StateSpec_congr (fun n => ?_) ⟨hlen1, hlen2, hQdom, hQ1, hQ0, hmask⟩
    constructor
    · exact Or.inl
    · rintro (hQ | ⟨rfl, ht⟩)
      · exact hQ
      · exact absurd ht.2 (not_lt.mpr hge)
  · rw [if_neg hge]
    by_cases hmiss : base.getD n0 0 ≤ -1
    · rw [if_pos hmiss]
      refine StateSpec_congr (fun n => ?_) ⟨hlen1, hlen2, hQdom, hQ1, hQ0, hmask⟩
      constructor
      · exact Or.inl
      · rintro (hQ | ⟨rfl, ht⟩)
        · exact hQ
        · exact absurd ht.1 (not_lt.mpr hmiss)
    · rw [if_neg hmiss]
      have htarg : targOK base n0 := ⟨lt_of_not_le hmiss, lt_of_not_le hge⟩
      by_cases hcell : 1 ≤ st.1.getD n0 0
      · rw [if_pos hcell]
        have hQn0 : Q n0 := by
          by_contra hc
          rw [hQ0 n0 hc] at hcell
          exact hge hcell
        have hmaskT : st.2.1.getD n0 false = true := (hmask n0).mpr hQn0
        rw [if_pos hmaskT]
        refine StateSpec_congr (fun n => ?_) ⟨hlen1, hlen2, hQdom, hQ1, hQ0, hmask⟩
        constructor
        · exact Or.inl
        · rintro (hQ | ⟨rfl, _⟩)
          · exact hQ
          · exact hQn0
      · rw [if_neg hcell]
        have hQn0 : ¬ Q n0 := fun hQ => hcell (le_of_eq (hQ1 n0 hQ).symm)
        have hmaskF : st.2.1.getD n0 false = false := by
          cases hm : st.2.1.getD n0 false with
          | false => rfl
          | true => exact absurd ((hmask n0).mp hm) hQn0
        rw [hmaskF]
        simp only [Bool.false_eq_true, if_false, reduceIte]
        refine ⟨by simpa using hlen1, by simpa using hlen2, ?_, ?_, ?_, ?_⟩
        · rintro n (hQ | ⟨rfl, ht⟩)
          · exact hQdom n hQ
          · exact ⟨ht, hn0lt⟩
        · rintro n (hQ | ⟨rfl, _⟩)
          · rw [getD_set_ne (fun he => hQn0 (by rw [hn0, ← he]; exact hQ)) 1 0]
            exact hQ1 n hQ
          · exact getD_set_self (hlen1 ▸ hn0lt) 1 0
        · intro n hn
          have hn1 : ¬ Q n := fun hq => hn (Or.inl hq)
          have hne : n ≠ n0 := fun he => hn (Or.inr ⟨by rw [he, hn0], by rw [he]; exact htarg⟩)
          rw [getD_set_ne hne 1 0]
          exact hQ0 n hn1
        · intro n
          by_cases hne : n = n0
          · subst hne
            rw [getD_set_self (hlen2 ▸ hn0lt) true false]
            simp [htarg]
          · rw [getD_set_ne hne true false]
            exact (hmask n).trans ⟨Or.inl, fun hc => hc.elim id (fun hc2 => absurd hc2.1 hne)⟩

theorem stampFold_spec {w h : ℕ} {base : List ℚ}
    (V : List (ℤ × ℤ))
    (hV : ∀ p ∈ V, 0 ≤ p.1 ∧ p.1 < (w : ℤ) ∧ 0 ≤ p.2 ∧ p.2 < (h : ℤ)) :
    ∀ (Q : ℕ → Prop) (st : InflState), StateSpec w h base Q st →
      StateSpec w h base
        (fun n => Q n ∨ (∃ p ∈ V, n = p.2.toNat * w + p.1.toNat ∧ targOK base n))
        (V.foldl (stampStep w base) st) := by
  induction V with
  | nil =>
    intro Q st hs
    rw [List.foldl_nil]
    refine StateSpec_congr (fun n => ?_) hs
    simp
  | cons p V ih =>
    intro Q st hs
    rw [List.foldl_cons]
    have hstep := stampStep_spec (hV p (List.mem_cons_self p V)) hs
    have hrest := ih (fun q hq => hV q (List.mem_cons_of_mem p hq)) _ _ hstep
    refine StateSpec_congr (fun n => ?_) hrest
    constructor
    · rintro ((hQ | hp) | ⟨q, hq, hrest2⟩)
      · exact Or.inl hQ
      · exact Or.inr ⟨p, List.mem_cons_self p V, hp⟩
      · exact Or.inr ⟨q, List.mem_cons_of_mem p hq, hrest2⟩
    · rintro (hQ | ⟨q, hq, hrest2⟩)
      · exact Or.inl (Or.inl hQ)
      · rcases List.mem_cons.mp hq with rfl | hq2
        · exact Or.inl (Or.inr hrest2)
        · exact Or.inr ⟨q, hq2, hrest2⟩

/-! ### Association-list lemmas -/

theorem alistLookup_nil {α : Type} (c : Cell) : alistLookup ([] : List (Cell × α)) c = none := rfl

theorem alistLookup_cons {α : Type} (e : Cell × α) (l : List (Cell × α)) (c : Cell) :
    alistLookup (e :: l) c = if e.1 = c then some e.2 else alistLookup l c := by
  unfold alistLookup
  by_cases h : e.1 = c
  · rw [List.find?_cons_of_pos _ (by simpa using h), if_pos h]
  · rw [List.find?_cons_of_neg _ (by simpa using h), if_neg h]

theorem alistLookup_upsert_self {α : Type} (l : List (Cell × α)) (c : Cell) (v : α) :
    alistLookup (alistUpsert l c v) c = some v := by
  unfold alistUpsert
  rw [alistLookup_cons, if_pos rfl]

theorem alistLookup_filter_ne {α : Type} (l : List (Cell × α)) {c d : Cell} (h : d ≠ c) :
    alistLookup (l.filter (fun e => decide (e.1 ≠ c))) d = alistLookup l d := by
  induction l with
  | nil => rfl
  | cons e l ih =>
    by_cases he : e.1 = c
    · rw [List.filter_cons_of_neg (by simpa using he), ih, alistLookup_cons,
        if_neg (fun hc => h (by rw [← hc, he]))]
    · rw [List.filter_cons_of_pos (by simpa using he), alistLookup_cons, alistLookup_cons, ih]

theorem alistLookup_upsert_ne {α : Type} (l : List (Cell × α)) {c d : Cell} (h : d ≠ c)
    (v : α) : alistLookup (alistUpsert l c v) d = alistLookup l d := by
  unfold alistUpsert
  rw [alistLookup_cons, if_neg (fun hc => h hc.symm), alistLookup_filter_ne _ h]

theorem alistLookup_erase_ne {α : Type} (l : List (Cell × α)) {c d : Cell} (h : d ≠ c) :
    alistLookup (alistErase l c) d = alistLookup l d :=
  alistLookup_filter_ne l h

theorem alistLookup_upsert_isSome {α : Type} (l : List (Cell × α)) (c d : Cell) (v : α)
    (h : (alistLookup l d).isSome = true) :
    (alistLookup (alistUpsert l c v) d).isSome = true := by
  by_cases hd : d = c
  · subst hd
    rw [alistLookup_upsert_self]
    rfl
  · rw [alistLookup_upsert_ne _ hd]
    exact h

theorem mem_insertCellSet {l : List Cell} {c d : Cell} :
    d ∈ insertCellSet l c ↔ d ∈ l ∨ d = c := by
  unfold insertCellSet
  by_cases h : c ∈ l
  · rw [if_pos h]
    constructor
    · exact Or.inl
    · rintro (hd | rfl)
      · exact hd
      · exact h
  · rw [if_neg h]
    simp [List.mem_append]

/-! ### CostmapLayer error contract (C7) -/

/-- C7: CostmapLayer::update raises a usage error exactly when the layer is
uninitialized or the base-cell count does not match width * height, and on
such an error the layer state (cells, inflation mask, inflation centers) is
left unchanged. -/
theorem costmapUpdate_usage_error (s : CostmapState) (base : List ℚ) (r : ℚ) :
    ((costmapUpdateRun s base r).2 = false ↔
      (s.initialized = false ∨ base.length ≠ s.width * s.height))
    ∧ ((costmapUpdateRun s base r).2 = false → (costmapUpdateRun s base r).1 = s) := by
  unfold costmapUpdateRun costmapUpdate
  by_cases h1 : s.initialized = true
  · by_cases h2 : base.length = s.width * s.height
    · simp [h1, h2]
    · simp [h1, h2]
  · simp only [Bool.not_eq_true] at h1
    simp [h1]

/-- Witness for costmapUpdate_usage_error: an uninitialized layer rejects an
update and is unchanged. -/
theorem costmapUpdate_usage_error_witness :
    (costmapUpdateRun uninitCostmap [0] 1).2 = false
    ∧ (costmapUpdateRun uninitCostmap [0] 1).1 = uninitCostmap := by
  have h := costmapUpdate_usage_error uninitCostmap [0] 1
  have hf : (costmapUpdateRun uninitCostmap [0] 1).2 = false := h.1.mpr (Or.inl rfl)
  exact ⟨hf, h.2 hf⟩

/-! ### Costmap inflation characterisation (C3) -/

theorem idx_decomp {w : ℕ} (hw : 0 < w) (a b : ℕ) (hb : b < w) :
    (a * w + b) % w = b ∧ (a * w + b) / w = a := by
  constructor
  · rw [Nat.mul_comm, Nat.mul_add_mod, Nat.mod_eq_of_lt hb]
  · rw [Nat.mul_comm a w, Nat.mul_add_div hw, Nat.div_eq_of_lt hb]
    omega

theorem allVisits_valid {w h : ℕ} {base : List ℚ} {r2 : ℚ} {rCeil : ℤ} :
    ∀ p ∈ allVisits w h base r2 rCeil,
      0 ≤ p.1 ∧ p.1 < (w : ℤ) ∧ 0 ≤ p.2 ∧ p.2 < (h : ℤ) := by
  intro p hp
  obtain ⟨k, _, _, hd⟩ := mem_allVisits.mp hp
  obtain ⟨dx, dy, _, _, _, _, h5, h6, h7, h8, _, rfl⟩ := mem_diskVisits.mp hd
  exact ⟨h5, h6, h7, h8⟩

/-- Bridge between membership in the visit list and the claim-level
Euclidean-disk condition. -/
theorem exists_visit_iff {w h : ℕ} {base : List ℚ} {r : ℚ}
    (hw : 0 < w) (hh : 0 < h) (hr : 0 < r) (hblen : base.length = w * h)
    {n : ℕ} (hn : n < w * h) :
    (∃ p ∈ allVisits w h base (max r 0 * max r 0) (max 1 ⌈max r 0⌉),
        n = p.2.toNat * w + p.1.toNat)
    ↔ ∃ k < base.length, 1 ≤ base.getD k 0 ∧
        (((n % w : ℕ) : ℚ) - ((k % w : ℕ) : ℚ)) ^ 2
          + (((n / w : ℕ) : ℚ) - ((k / w : ℕ) : ℚ)) ^ 2 ≤ r ^ 2 := by
  have hmax : max r 0 = r := max_eq_left (le_of_lt hr)
  constructor
  · rintro ⟨p, hp, hidx⟩
    obtain ⟨k, hk, hob, hd⟩ := mem_allVisits.mp hp
    obtain ⟨dx, dy, _, _, _, _, h5, h6, h7, h8, hdist, hpe⟩ := mem_diskVisits.mp hd
    refine ⟨k, hk, hob, ?_⟩
    have hx1 : p.1 = ((k % w : ℕ) : ℤ) + dx := by rw [hpe]
    have hy1 : p.2 = ((k / w : ℕ) : ℤ) + dy := by rw [hpe]
    have hxv : 0 ≤ p.1 ∧ p.1 < (w : ℤ) := ⟨by omega, by omega⟩
    have hyv : 0 ≤ p.2 ∧ p.2 < (h : ℤ) := ⟨by omega, by omega⟩
    have hmod : n % w = p.1.toNat ∧ n / w = p.2.toNat := by
      have := idx_decomp hw p.2.toNat p.1.toNat (by omega)
      rw [hidx]
      exact ⟨this.1, this.2⟩
    have hdx : ((n % w : ℕ) : ℤ) - ((k % w : ℕ) : ℤ) = dx := by
      rw [hmod.1]
      omega
    have hdy : ((n / w : ℕ) : ℤ) - ((k / w : ℕ) : ℤ) = dy := by
      rw [hmod.2]
      omega
    rw [hmax] at hdist
    have hcast : (((n % w : ℕ) : ℚ) - ((k % w : ℕ) : ℚ)) = ((dx : ℤ) : ℚ) := by
      rw [← hdx, Int.cast_sub, Int.cast_natCast, Int.cast_natCast]
    have hcast2 : (((n / w : ℕ) : ℚ) - ((k / w : ℕ) : ℚ)) = ((dy : ℤ) : ℚ) := by
      rw [← hdy, Int.cast_sub, Int.cast_natCast, Int.cast_natCast]
    rw [hcast, hcast2]
    have : ((dx * dx + dy * dy : ℤ) : ℚ) = ((dx : ℤ) : ℚ) ^ 2 + ((dy : ℤ) : ℚ) ^ 2 := by
      push_cast
      ring
    rw [this] at hdist
    calc ((dx : ℤ) : ℚ) ^ 2 + ((dy : ℤ) : ℚ) ^ 2 ≤ r * r := hdist
    _ = r ^ 2 := by ring
  · rintro ⟨k, hk, hob, hdist⟩
    have hkw : k % w < w := Nat.mod_lt _ hw
    have hkh : k / w < h := Nat.div_lt_iff_lt_mul hw |>.mpr (by rw [Nat.mul_comm]; omega)
    have hnw : n % w < w := Nat.mod_lt _ hw
    have hnh : n / w < h := Nat.div_lt_iff_lt_mul hw |>.mpr (by rw [Nat.mul_comm]; omega)
    set dx : ℤ := ((n % w : ℕ) : ℤ) - ((k % w : ℕ) : ℤ) with hdxd
    set dy : ℤ := ((n / w : ℕ) : ℤ) - ((k / w : ℕ) : ℤ) with hdyd
    have hcast : (((n % w : ℕ) : ℚ) - ((k % w : ℕ) : ℚ)) = ((dx : ℤ) : ℚ) := by
      rw [hdxd, Int.cast_sub, Int.cast_natCast, Int.cast_natCast]
    have hcast2 : (((n / w : ℕ) : ℚ) - ((k / w : ℕ) : ℚ)) = ((dy : ℤ) : ℚ) := by
      rw [hdyd, Int.cast_sub, Int.cast_natCast, Int.cast_natCast]
    rw [hcast, hcast2] at hdist
    have hdxr : ((dx : ℤ) : ℚ) ^ 2 ≤ r ^ 2 := by nlinarith [sq_nonneg ((dy : ℤ) : ℚ)]
    have hdyr : ((dy : ℤ) : ℚ) ^ 2 ≤ r ^ 2 := by nlinarith [sq_nonneg ((dx : ℤ) : ℚ)]
    have hdx1 : ((dx : ℤ) : ℚ) ≤ r := by nlinarith
    have hdx2 : -r ≤ ((dx : ℤ) : ℚ) := by nlinarith
    have hdy1 : ((dy : ℤ) : ℚ) ≤ r := by nlinarith
    have hdy2 : -r ≤ ((dy : ℤ) : ℚ) := by nlinarith
    have hceil : r ≤ ((max 1 ⌈r⌉ : ℤ) : ℚ) := by
      calc r ≤ ((⌈r⌉ : ℤ) : ℚ) := Int.le_ceil r
      _ ≤ ((max 1 ⌈r⌉ : ℤ) : ℚ) := by exact_mod_cast le_max_right 1 ⌈r⌉
    have hdxc : dx ≤ max 1 ⌈r⌉ ∧ -(max 1 ⌈r⌉) ≤ dx := by
      constructor
      · exact_mod_cast le_trans hdx1 hceil
      · have : -((max 1 ⌈r⌉ : ℤ) : ℚ) ≤ ((dx : ℤ) : ℚ) := le_trans (by linarith) hdx2
        exact_mod_cast this
    have hdyc : dy ≤ max 1 ⌈r⌉ ∧ -(max 1 ⌈r⌉) ≤ dy := by
      constructor
      · exact_mod_cast le_trans hdy1 hceil
      · have : -((max 1 ⌈r⌉ : ℤ) : ℚ) ≤ ((dy : ℤ) : ℚ) := le_trans (by linarith) hdy2
        exact_mod_cast this
    have hxe : ((k % w : ℕ) : ℤ) + dx = ((n % w : ℕ) : ℤ) := by rw [hdxd]; ring
    have hye : ((k / w : ℕ) : ℤ) + dy = ((n / w : ℕ) : ℤ) := by rw [hdyd]; ring
    refine ⟨(((n % w : ℕ) : ℤ), ((n / w : ℕ) : ℤ)), ?_, ?_⟩
    · apply mem_allVisits.mpr
      refine ⟨k, hk, hob, ?_⟩
      apply mem_diskVisits.mpr
      refine ⟨dx, dy, ?_, ?_, ?_, ?_, ?_, ?_, ?_, ?_, ?_, ?_⟩
      · rw [hmax]
        exact hdxc.2
      · rw [hmax]
        exact hdxc.1
      · rw [hmax]
        exact hdyc.2
      · rw [hmax]
        exact hdyc.1
      · rw [hxe]
        exact Int.natCast_nonneg _
      · rw [hxe]
        exact_mod_cast hnw
      · rw [hye]
        exact Int.natCast_nonneg _
      · rw [hye]
        exact_mod_cast hnh
      · rw [hmax]
        have he : ((dx * dx + dy * dy : ℤ) : ℚ) = ((dx : ℤ) : ℚ) ^ 2 + ((dy : ℤ) : ℚ) ^ 2 := by
          push_cast
          ring
        rw [he]
        calc ((dx : ℤ) : ℚ) ^ 2 + ((dy : ℤ) : ℚ) ^ 2 ≤ r ^ 2 := hdist
        _ = r * r := by ring
      · rw [Prod.ext_iff]
        exact ⟨hxe.symm, hye.symm⟩
    · have h1 : (((n / w : ℕ) : ℤ)).toNat = n / w := Int.toNat_natCast _
      have h2 : (((n % w : ℕ) : ℤ)).toNat = n % w := Int.toNat_natCast _
      rw [h1, h2]
      calc n = w * (n / w) + n % w := (Nat.div_add_mod n w).symm
      _ = n / w * w + n % w := by ring

/-- Full pointwise characterisation of a successful CostmapLayer::update
with positive radius (shared helper; see costmap_inflation_mask). -/
theorem costmap_mask_spec (s : CostmapState) (base : List ℚ) (r : ℚ)
    (hin : s.initialized = true) (hlen : base.length = s.width * s.height)
    (hw : 0 < s.width) (hh : 0 < s.height) (hr : 0 < r) :
    ∀ n < s.width * s.height,
      ((costmapUpdateRun s base r).1.inflationMask.getD n false = true ↔
        (-1 < base.getD n 0 ∧ base.getD n 0 < 1 ∧
          ∃ k < base.length, 1 ≤ base.getD k 0 ∧
            (((n % s.width : ℕ) : ℚ) - ((k % s.width : ℕ) : ℚ)) ^ 2
              + (((n / s.width : ℕ) : ℚ) - ((k / s.width : ℕ) : ℚ)) ^ 2 ≤ r ^ 2))
      ∧ ((costmapUpdateRun s base r).1.inflationMask.getD n false = true →
          (costmapUpdateRun s base r).1.cells.getD n 0 = 1)
      ∧ ((costmapUpdateRun s base r).1.inflationMask.getD n false = false →
          (costmapUpdateRun s base r).1.cells.getD n 0 = base.getD n 0) := by
  intro n hn
  have hrun : (costmapUpdateRun s base r).1.inflationMask
        = (costmapUpdateCore s.width s.height base r).2.1
      ∧ (costmapUpdateRun s base r).1.cells
        = (costmapUpdateCore s.width s.height base r).1 := by
    unfold costmapUpdateRun costmapUpdate
    simp [hin, hlen]
  have hmaxr : ¬ max r 0 ≤ 0 := by
    rw [max_eq_left (le_of_lt hr)]
    exact not_le.mpr hr
  have hcore := costmapUpdateCore_eq_foldl s.width s.height base r (by omega) (by omega) hmaxr
  have hspec0 : StateSpec s.width s.height base (fun _ => False)
      (base, List.replicate (s.width * s.height) false, []) := by
    refine ⟨hlen, List.length_replicate _ _, ?_, ?_, ?_, ?_⟩
    · intro m hm
      exact absurd hm (by simp)
    · intro m hm
      exact absurd hm (by simp)
    · intro m _
      rfl
    · intro m
      rw [getD_replicate]
      by_cases hc : m < s.width * s.height <;> simp [hc]
  have hfold := stampFold_spec
    (allVisits s.width s.height base (max r 0 * max r 0) (max 1 ⌈max r 0⌉))
    allVisits_valid _ _ hspec0
  rw [← hcore] at hfold
  obtain ⟨hl1, hl2, hdom, hc1, hc0, hmask⟩ := hfold
  have hiff := (hmask n)
  have hconv :
      ((fun m => False ∨ ∃ p ∈ allVisits s.width s.height base (max r 0 * max r 0)
          (max 1 ⌈max r 0⌉), m = p.2.toNat * s.width + p.1.toNat ∧ targOK base m) n)
      ↔ (-1 < base.getD n 0 ∧ base.getD n 0 < 1 ∧
          ∃ k < base.length, 1 ≤ base.getD k 0 ∧
            (((n % s.width : ℕ) : ℚ) - ((k % s.width : ℕ) : ℚ)) ^ 2
              + (((n / s.width : ℕ) : ℚ) - ((k / s.width : ℕ) : ℚ)) ^ 2 ≤ r ^ 2) := by
    simp only [false_or]
    constructor
    · rintro ⟨p, hp, hpi, ht⟩
      obtain ⟨k, hk, hob, hdist⟩ :=
        (exists_visit_iff hw hh hr hlen hn).mp ⟨p, hp, hpi⟩
      exact ⟨ht.1, ht.2, k, hk, hob, hdist⟩
    · rintro ⟨h1, h2, k, hk, hob, hdist⟩
      obtain ⟨p, hp, hpi⟩ := (exists_visit_iff hw hh hr hlen hn).mpr ⟨k, hk, hob, hdist⟩
      exact ⟨p, hp, hpi, h1, h2⟩
  refine ⟨hrun.1 ▸ (hiff.trans hconv), ?_, ?_⟩
  · intro hm
    rw [hrun.2]
    exact hc1 n ((hiff.mp (by rw [← hrun.1]; exact hm)))
  · intro hm
    rw [hrun.2]
    apply hc0 n
    intro hq
    have := hiff.mpr hq
    rw [← hrun.1] at this
    rw [hm] at this
    exact Bool.false_ne_true this

/-- C3 (amended): after a successful CostmapLayer::update with radius > 0, a
cell is marked in the inflation mask exactly when its base value lies
strictly between -1 and 1 (the code also inflates fully free cells with
value 0, not only weighted cells in (0,1)) and it lies within Euclidean
distance r of a base obstacle; marked cells read 1.0, unmarked cells keep
their base value (so base obstacles and missing cells are never re-marked). -/
theorem costmap_inflation_mask (s : CostmapState) (base : List ℚ) (r : ℚ)
    (hin : s.initialized = true) (hlen : base.length = s.width * s.height)
    (hw : 0 < s.width) (hh : 0 < s.height) (hr : 0 < r) :
    ∀ n < s.width * s.height,
      ((costmapUpdateRun s base r).1.inflationMask.getD n false = true ↔
        (-1 < base.getD n 0 ∧ base.getD n 0 < 1 ∧
          ∃ k < base.length, 1 ≤ base.getD k 0 ∧
            (((n % s.width : ℕ) : ℚ) - ((k % s.width : ℕ) : ℚ)) ^ 2
              + (((n / s.width : ℕ) : ℚ) - ((k / s.width : ℕ) : ℚ)) ^ 2 ≤ r ^ 2))
      ∧ ((costmapUpdateRun s base r).1.inflationMask.getD n false = true →
          (costmapUpdateRun s base r).1.cells.getD n 0 = 1)
      ∧ ((costmapUpdateRun s base r).1.inflationMask.getD n false = false →
          (costmapUpdateRun s base r).1.cells.getD n 0 = base.getD n 0) :=
  costmap_mask_spec s base r hin hlen hw hh hr

/-- Counterexample to C3 as stated: on the 2x1 grid with base [1, 0] and
radius 1, the free cell (value 0, not in the open interval (0,1)) is marked
as inflated and set to 1.0. -/
theorem costmap_inflation_mask_cex :
    (costmapUpdateRun (costmapInitialize 2 1) [1, 0] 1).1.inflationMask.getD 1 false = true
    ∧ (costmapUpdateRun (costmapInitialize 2 1) [1, 0] 1).1.cells.getD 1 0 = 1
    ∧ ([(1 : ℚ), 0].getD 1 0 = 0 ∧ ¬ (0 < [(1 : ℚ), 0].getD 1 0 ∧ [(1 : ℚ), 0].getD 1 0 < 1)) := by
  have h := costmap_mask_spec (costmapInitialize 2 1) [1, 0] 1 rfl (by decide) (by decide)
    (by decide) (by norm_num) 1 (by decide)
  have hm : (costmapUpdateRun (costmapInitialize 2 1) [1, 0] 1).1.inflationMask.getD 1 false
      = true := by
    apply h.1.mpr
    refine ⟨by norm_num, by norm_num, 0, by decide, by decide, ?_⟩
    norm_num [costmapInitialize]
  exact ⟨hm, h.2.1 hm, by decide⟩

/-- Witness for costmap_inflation_mask at a concrete input: on the 2x1 grid
with base [1, 1/2] and radius 1 the weighted cell is inflated. -/
theorem costmap_inflation_mask_witness :
    (costmapUpdateRun (costmapInitialize 2 1) [1, 1/2] 1).1.inflationMask.getD 1 false = true
    ∧ (costmapUpdateRun (costmapInitialize 2 1) [1, 1/2] 1).1.cells.getD 1 0 = 1 := by
  have h := costmap_inflation_mask (costmapInitialize 2 1) [1, 1/2] 1 rfl (by decide)
    (by decide) (by decide) (by norm_num) 1 (by decide)
  have hm : (costmapUpdateRun (costmapInitialize 2 1) [1, 1/2] 1).1.inflationMask.getD 1 false
      = true := by
    apply h.1.mpr
    refine ⟨by norm_num, by norm_num, 0, by decide, by norm_num, ?_⟩
    norm_num [costmapInitialize]
  exact ⟨hm, h.2.1 hm⟩

/-! ### User add-obstacle operation (C9) -/

/-- C9: adding a user obstacle inserts the cell into the hidden set exactly
when it is in bounds, not the start or goal marker, and not already a
visible or hidden obstacle; a successful insertion changes only the hidden
set (runtime cells and the planner grid are untouched), and disjointness of
the visible and hidden sets is preserved. -/
theorem add_hidden_obstacle_spec (v : ViewerState) (c : Cell) :
    ((addObstacleFromInput v c).2 = true ↔
      (containsCell v c = true ∧ c ≠ v.startCell ∧ c ≠ v.goalCell ∧
       c ∉ v.visibleObstacles ∧ c ∉ v.hiddenObstacles))
    ∧ ((addObstacleFromInput v c).2 = true →
        ((addObstacleFromInput v c).1.hiddenObstacles = insert c v.hiddenObstacles ∧
         (addObstacleFromInput v c).1.visibleObstacles = v.visibleObstacles ∧
         (addObstacleFromInput v c).1.runtimeCells = v.runtimeCells ∧
         (addObstacleFromInput v c).1.plannerGrid = v.plannerGrid))
    ∧ (Disjoint v.visibleObstacles v.hiddenObstacles →
        Disjoint (addObstacleFromInput v c).1.visibleObstacles
          (addObstacleFromInput v c).1.hiddenObstacles) := by
  have hred : addObstacleFromInput v c
      = (if ¬ (containsCell v c = true) then ({ v with lastPaintedCell := c }, false)
         else if c = v.startCell ∨ c = v.goalCell then ({ v with lastPaintedCell := c }, false)
         else if c ∈ v.visibleObstacles ∨ c ∈ v.hiddenObstacles then
           ({ v with lastPaintedCell := c }, false)
         else ({ v with lastPaintedCell := c,
                        hiddenObstacles := insert c v.hiddenObstacles }, true)) := rfl
  rw [hred]
  by_cases h1 : containsCell v c = true
  · rw [if_neg (by simpa using h1)]
    by_cases h2 : c = v.startCell ∨ c = v.goalCell
    · rw [if_pos h2]
      refine ⟨?_, fun hc => absurd hc (by simp), fun hd => hd⟩
      simp only [Bool.false_eq_true, false_iff]
      rintro ⟨_, hs, hg, _, _⟩
      rcases h2 with h2 | h2
      · exact hs h2
      · exact hg h2
    · rw [if_neg h2]
      by_cases h3 : c ∈ v.visibleObstacles ∨ c ∈ v.hiddenObstacles
      · rw [if_pos h3]
        refine ⟨?_, fun hc => absurd hc (by simp), fun hd => hd⟩
        simp only [Bool.false_eq_true, false_iff]
        rintro ⟨_, _, _, hv, hh⟩
        rcases h3 with h3 | h3
        · exact hv h3
        · exact hh h3
      · rw [if_neg h3]
        push_neg at h2 h3
        refine ⟨?_, fun _ => ⟨rfl, rfl, rfl, rfl⟩, fun hd => ?_⟩
        · simp only [true_iff]
          exact ⟨h1, h2.1, h2.2, h3.1, h3.2⟩
        · show Disjoint v.visibleObstacles (insert c v.hiddenObstacles)
          rw [Finset.disjoint_insert_right]
          exact ⟨h3.1, hd⟩
  · rw [if_pos (by simpa using h1)]
    refine ⟨?_, fun hc => absurd hc (by simp), fun hd => hd⟩
    simp only [Bool.false_eq_true, false_iff]
    rintro ⟨hc, _, _, _, _⟩
    exact h1 hc

/-- Witness for add_hidden_obstacle_spec: adding a fresh in-bounds cell to
the demo viewer succeeds, inserts into the hidden set only, and keeps the
sets disjoint. -/
theorem add_hidden_obstacle_spec_witness :
    (addObstacleFromInput demoViewer (1, 1)).2 = true
    ∧ (addObstacleFromInput demoViewer (1, 1)).1.hiddenObstacles
        = insert (1, 1) demoViewer.hiddenObstacles
    ∧ (addObstacleFromInput demoViewer (1, 1)).1.runtimeCells = demoViewer.runtimeCells
    ∧ Disjoint (addObstacleFromInput demoViewer (1, 1)).1.visibleObstacles
        (addObstacleFromInput demoViewer (1, 1)).1.hiddenObstacles := by
  have h := add_hidden_obstacle_spec demoViewer (1, 1)
  have hs : (addObstacleFromInput demoViewer (1, 1)).2 = true :=
    h.1.mpr ⟨by decide, by decide, by decide, by decide, by decide⟩
  obtain ⟨hh, _, hr, _⟩ := h.2.1 hs
  exact ⟨hs, hh, hr, h.2.2 (by decide)⟩

/-! ### Agent travelled polyline (C8) -/

theorem getLast?_eq_getLastD {α : Type} : ∀ (l : List α), l ≠ [] → ∀ d : α,
    l.getLast? = some (l.getLastD d) := by
  intro l
  induction l with
  | nil => exact fun h _ => absurd rfl h
  | cons a l ih =>
    intro _ d
    cases l with
    | nil => rfl
    | cons b t =>
      rw [List.getLast?_cons_cons, List.getLastD_cons, ih (by simp) a]

theorem travelLoop_append (a : AgentState) :
    ∀ (k i : ℕ) (r : ℚ) (acc : List Point), a.segmentLengths.length - i ≤ k →
      ∃ t, (travelLoop a i r acc).1 = acc ++ t := by
  intro k
  induction k with
  | zero =>
    intro i r acc hk
    unfold travelLoop
    rw [if_neg (by omega)]
    exact ⟨[], by simp⟩
  | succ k ih =>
    intro i r acc hk
    unfold travelLoop
    by_cases hi : i < a.segmentLengths.length
    · rw [if_pos hi]
      by_cases h1 : a.segmentLengths.getD i 0 ≤ 1 / 1000000
      · rw [if_pos h1]
        obtain ⟨t, ht⟩ := ih (i + 1) r (acc ++ [a.waypoints.getD (i + 1) (0, 0)]) (by omega)
        exact ⟨[a.waypoints.getD (i + 1) (0, 0)] ++ t, by rw [ht]; simp⟩
      · rw [if_neg h1]
        by_cases h2 : a.segmentLengths.getD i 0 ≤ r
        · rw [if_pos h2]
          obtain ⟨t, ht⟩ := ih (i + 1) (r - a.segmentLengths.getD i 0)
            (acc ++ [a.waypoints.getD (i + 1) (0, 0)]) (by omega)
          exact ⟨[a.waypoints.getD (i + 1) (0, 0)] ++ t, by rw [ht]; simp⟩
        · rw [if_neg h2]
          exact ⟨_, rfl⟩
    · rw [if_neg hi]
      exact ⟨[], by simp⟩

theorem coveredPolyline_head (a : AgentState) :
    ∃ t, coveredPolyline a = a.waypoints.getD 0 (0, 0) :: t := by
  unfold coveredPolyline
  obtain ⟨t, ht⟩ := travelLoop_append a a.segmentLengths.length 0
    (max 0 (min a.distanceTravelled a.totalLength)) [a.waypoints.getD 0 (0, 0)] (by omega)
  by_cases hg : 0 < (travelLoop a 0 (max 0 (min a.distanceTravelled a.totalLength))
      [a.waypoints.getD 0 (0, 0)]).2 ∧ 2 ≤ a.waypoints.length
  · rw [if_pos hg, ht]
    exact ⟨t ++ [a.waypoints.getLastD (0, 0)], by simp⟩
  · rw [if_neg hg, ht]
    exact ⟨t, by simp⟩

theorem coveredPolyline_ne_nil (a : AgentState) : coveredPolyline a ≠ [] := by
  obtain ⟨t, ht⟩ := coveredPolyline_head a
  rw [ht]
  exact List.cons_ne_nil _ _

/-- C8 (amended): for every agent state with an available path and nonempty
waypoints, getTravelledPolyline is nonempty, starts at the first waypoint
and ends at the current position; with no segments or distance_travelled <=
0 it is exactly [first waypoint, current position] (no de-duplication, so
the two points may coincide); otherwise it is the covered polyline with the
current position appended only when that differs from the last covered
point. -/
theorem travelled_polyline_structure (a : AgentState)
    (hp : a.pathAvailable = true) (hw : a.waypoints ≠ []) :
    getTravelledPolyline a ≠ []
    ∧ (getTravelledPolyline a).head? = some (a.waypoints.getD 0 (0, 0))
    ∧ (getTravelledPolyline a).getLast? = some a.currentPosition
    ∧ ((a.segmentLengths = [] ∨ a.distanceTravelled ≤ 0) →
        getTravelledPolyline a = [a.waypoints.getD 0 (0, 0), a.currentPosition])
    ∧ (¬ (a.segmentLengths = [] ∨ a.distanceTravelled ≤ 0) →
        ((getTravelledPolyline a = coveredPolyline a ∧
            (coveredPolyline a).getLastD (0, 0) = a.currentPosition)
         ∨ (getTravelledPolyline a = coveredPolyline a ++ [a.currentPosition] ∧
            (coveredPolyline a).getLastD (0, 0) ≠ a.currentPosition))) := by
  have hcond : ¬ (¬ (a.pathAvailable = true) ∨ a.waypoints = []) := by
    rw [hp]
    simp [hw]
  unfold getTravelledPolyline
  rw [if_neg hcond]
  by_cases hb : a.segmentLengths = [] ∨ a.distanceTravelled ≤ 0
  · rw [if_pos hb]
    refine ⟨by simp, by simp, by simp, fun _ => rfl, fun hc => absurd hb hc⟩
  · rw [if_neg hb]
    obtain ⟨t, ht⟩ := coveredPolyline_head a
    by_cases hg : coveredPolyline a = [] ∨ (coveredPolyline a).getLastD (0, 0) ≠ a.currentPosition
    · rw [if_pos hg]
      have hne : (coveredPolyline a).getLastD (0, 0) ≠ a.currentPosition := by
        rcases hg with hg | hg
        · exact absurd hg (coveredPolyline_ne_nil a)
        · exact hg
      refine ⟨by simp, ?_, ?_, fun hc => absurd hc hb, fun _ => Or.inr ⟨rfl, hne⟩⟩
      · rw [ht]
        simp
      · rw [List.getLast?_append]
        rfl
    · rw [if_neg hg]
      push_neg at hg
      refine ⟨coveredPolyline_ne_nil a, ?_, ?_, fun hc => absurd hc hb,
        fun _ => Or.inl ⟨rfl, hg.2⟩⟩
      · rw [ht]
        rfl
      · rw [getLast?_eq_getLastD _ (coveredPolyline_ne_nil a) (0, 0), hg.2]

/-- Counterexample to C8 as stated: right after a path is delivered
(distance_travelled = 0) the returned polyline repeats the first waypoint,
so it is not free of consecutive duplicates. -/
theorem travelled_polyline_cex :
    getTravelledPolyline cexAgent = [(0, 0), (0, 0)]
    ∧ ¬ List.Chain' (fun p q : Point => p ≠ q) (getTravelledPolyline cexAgent) := by
  have he : getTravelledPolyline cexAgent = [(0, 0), (0, 0)] := by decide
  refine ⟨he, ?_⟩
  rw [he]
  intro h
  exact (List.chain'_cons.mp h).1 rfl

/-- Witness for travelled_polyline_structure at the concrete agent state
cexAgent. -/
theorem travelled_polyline_structure_witness :
    getTravelledPolyline cexAgent ≠ []
    ∧ (getTravelledPolyline cexAgent).head? = some ((0 : ℚ), (0 : ℚ))
    ∧ (getTravelledPolyline cexAgent).getLast? = some ((0 : ℚ), (0 : ℚ))
    ∧ getTravelledPolyline cexAgent = [(0, 0), (0, 0)] := by
  have h := travelled_polyline_structure cexAgent rfl (by decide)
  exact ⟨h.1, h.2.1, h.2.2.1, h.2.2.2.1 (Or.inr (by decide))⟩

/-! ### D* Lite frame lemmas -/

theorem sameCore_refl (s : DState) : SameCore s s :=
  ⟨rfl, rfl, rfl, rfl, rfl, rfl, rfl, rfl, rfl⟩

theorem sameCore_trans {s1 s2 s3 : DState} (h1 : SameCore s1 s2) (h2 : SameCore s2 s3) :
    SameCore s1 s3 := by
  obtain ⟨a1, a2, a3, a4, a5, a6, a7, a8, a9⟩ := h1
  obtain ⟨b1, b2, b3, b4, b5, b6, b7, b8, b9⟩ := h2
  exact ⟨a1.trans b1, a2.trans b2, a3.trans b3, a4.trans b4, a5.trans b5, a6.trans b6,
    a7.trans b7, a8.trans b8, a9.trans b9⟩

theorem dslSetRhs_core (s : DState) (c : Cell) (v : QInf) : SameCore (dslSetRhs s c v) s :=
  ⟨rfl, rfl, rfl, rfl, rfl, rfl, rfl, rfl, rfl⟩

theorem dslSetG_core (s : DState) (c : Cell) (v : QInf) : SameCore (dslSetG s c v) s :=
  ⟨rfl, rfl, rfl, rfl, rfl, rfl, rfl, rfl, rfl⟩

theorem pushOpen_core (s : DState) (c : Cell) (k : DKey) : SameCore (pushOpen s c k) s :=
  ⟨rfl, rfl, rfl, rfl, rfl, rfl, rfl, rfl, rfl⟩

theorem updateVertex_core (s : DState) (c : Cell) : SameCore (updateVertex s c) s := by
  unfold updateVertex
  dsimp only
  repeat' split
  all_goals exact ⟨rfl, rfl, rfl, rfl, rfl, rfl, rfl, rfl, rfl⟩

theorem foldl_updateVertex_core (l : List Cell) :
    ∀ s : DState, SameCore (l.foldl updateVertex s) s := by
  induction l with
  | nil => exact fun s => sameCore_refl s
  | cons c l ih =>
    intro s
    rw [List.foldl_cons]
    exact sameCore_trans (ih (updateVertex s c)) (updateVertex_core s c)

theorem applyPendingUpdates_core (s : DState) : SameCore (applyPendingUpdates s) s := by
  unfold applyPendingUpdates
  by_cases h : s.pendingUpdates = []
  · rw [if_pos h]
    exact sameCore_refl s
  · rw [if_neg h]
    exact sameCore_trans (foldl_updateVertex_core _ _)
      ⟨rfl, rfl, rfl, rfl, rfl, rfl, rfl, rfl, rfl⟩

theorem cspAux_core (fuel : ℕ) : ∀ s : DState, SameCore (computeShortestPathAux fuel s) s := by
  induction fuel with
  | zero => exact fun s => sameCore_refl s
  | succ fuel ih =>
    intro s
    unfold computeShortestPathAux
    cases hpop : popOpenMin s.openList with
    | none => exact sameCore_refl s
    | some pr =>
      obtain ⟨top, rest⟩ := pr
      dsimp only
      repeat' split
      all_goals first
        | exact sameCore_refl s
        | exact sameCore_trans (ih _) ⟨rfl, rfl, rfl, rfl, rfl, rfl, rfl, rfl, rfl⟩
        | exact sameCore_trans (ih _) (sameCore_trans (foldl_updateVertex_core _ _)
            ⟨rfl, rfl, rfl, rfl, rfl, rfl, rfl, rfl, rfl⟩)
        | exact sameCore_trans (ih _) (sameCore_trans (foldl_updateVertex_core _ _)
            (sameCore_trans (updateVertex_core _ _) ⟨rfl, rfl, rfl, rfl, rfl, rfl, rfl, rfl, rfl⟩))

theorem computeShortestPath_core (fuel : ℕ) (s : DState) :
    SameCore (computeShortestPath fuel s) s := by
  unfold computeShortestPath
  exact sameCore_trans (cspAux_core fuel _) ⟨rfl, rfl, rfl, rfl, rfl, rfl, rfl, rfl, rfl⟩

theorem sameCore_km {s1 s2 : DState} (h : SameCore s1 s2) :
    s1.keyModifier = s2.keyModifier := h.2.2.2.2.2.2.2.2

theorem sameCore_start {s1 s2 : DState} (h : SameCore s1 s2) :
    s1.startCell = s2.startCell := h.2.1

theorem sameCore_goal {s1 s2 : DState} (h : SameCore s1 s2) :
    s1.goalCell = s2.goalCell := h.2.2.1

/-- computePath either leaves keyModifier no smaller than before, or (on the
re-initialization path) resets it to 0. -/
theorem dslComputePath_km_cases (s : DState) :
    s.keyModifier ≤ (dslComputePath s).1.keyModifier ∨
      (dslComputePath s).1.keyModifier = 0 := by
  unfold dslComputePath
  by_cases hv : ¬ (isValidStartGoal s = true)
  · rw [if_pos hv]
    exact Or.inl (le_of_eq rfl)
  · rw [if_neg hv]
    dsimp only
    by_cases hinit : s.initialized = false
    · rw [if_pos hinit]
      rw [if_neg (show ¬ (initializePlanner s).lastStart ≠ (initializePlanner s).startCell from
        fun h => h rfl)]
      refine Or.inr ?_
      set s3 := applyPendingUpdates (initializePlanner s) with hs3
      set s4 := updateVertex s3 s3.startCell with hs4
      set s5 := computeShortestPath (cspFuel s4) s4 with hs5
      have h5 : s5.keyModifier = 0 := by
        rw [hs5, sameCore_km (computeShortestPath_core (cspFuel s4) s4), hs4,
          sameCore_km (updateVertex_core s3 s3.startCell), hs3,
          sameCore_km (applyPendingUpdates_core (initializePlanner s))]
        rfl
      split
      · exact h5
      · split
        · exact h5
        · exact h5
    · rw [if_neg hinit]
      by_cases hls : s.lastStart ≠ s.startCell
      · rw [if_pos hls]
        refine Or.inl ?_
        set s2 := ({ s with keyModifier := s.keyModifier + heuristic s.lastStart s.startCell, lastStart := s.startCell } : DState) with hs2
        set s3 := applyPendingUpdates s2 with hs3
        set s4 := updateVertex s3 s3.startCell with hs4
        set s5 := computeShortestPath (cspFuel s4) s4 with hs5
        have h5 : s5.keyModifier = s.keyModifier + heuristic s.lastStart s.startCell := by
          rw [hs5, sameCore_km (computeShortestPath_core (cspFuel s4) s4), hs4,
            sameCore_km (updateVertex_core s3 s3.startCell), hs3,
            sameCore_km (applyPendingUpdates_core s2), hs2]
        have hle : s.keyModifier ≤ s5.keyModifier := by
          rw [h5]
          exact le_add_of_nonneg_right (heuristic_nonneg _ _)
        split
        · exact hle
        · split
          · exact hle
          · exact hle
      · rw [if_neg hls]
        refine Or.inl ?_
        set s3 := applyPendingUpdates s with hs3
        set s4 := updateVertex s3 s3.startCell with hs4
        set s5 := computeShortestPath (cspFuel s4) s4 with hs5
        have h5 : s5.keyModifier = s.keyModifier := by
          rw [hs5, sameCore_km (computeShortestPath_core (cspFuel s4) s4), hs4,
            sameCore_km (updateVertex_core s3 s3.startCell), hs3,
            sameCore_km (applyPendingUpdates_core s)]
        have hle : s.keyModifier ≤ s5.keyModifier := le_of_eq h5.symm
        split
        · exact hle
        · split
          · exact hle
          · exact hle

/-- C5: across the public operations (setMap, setStart, setGoal, computePath)
the key modifier never decreases EXCEPT that the full planner
re-initializations (a first or dimension-changing setMap, and the
initializePlanner call inside computePath when the planner is not
initialized) reset it to 0.  The unconditional monotonicity stated by the
spec is refuted by keyModifier_monotone_cex below. -/
theorem keyModifier_monotone_or_reset (s : DState) (op : DOp) :
    s.keyModifier ≤ (applyOp s op).keyModifier ∨ (applyOp s op).keyModifier = 0 := by
  cases op with
  | setMapOp g =>
    unfold applyOp dslSetMap
    dsimp only
    by_cases h1 : s.hasMap = false
    · rw [if_pos h1]
      exact Or.inr rfl
    · rw [if_neg h1]
      by_cases h2 : s.map.width ≠ g.width ∨ s.map.height ≠ g.height
      · rw [if_pos h2]
        exact Or.inr rfl
      · rw [if_neg h2]
        exact Or.inl (le_of_eq rfl)
  | setStartOp c =>
    refine Or.inl ?_
    unfold applyOp dslSetStart
    dsimp only
    repeat' split
    all_goals first
      | exact le_of_eq rfl
      | exact le_add_of_nonneg_right (heuristic_nonneg _ _)
  | setGoalOp c => exact Or.inl (le_of_eq rfl)
  | computePathOp => exact dslComputePath_km_cases s

/-- Membership in a fold that conditionally set-inserts a cell per index. -/
theorem mem_foldl_insertIf {P : ℕ → Prop} [DecidablePred P] (f : ℕ → Cell) :
    ∀ (l : List ℕ) (acc : List Cell) (c : Cell),
      (c ∈ l.foldl (fun a idx => if P idx then insertCellSet a (f idx) else a) acc ↔
        c ∈ acc ∨ ∃ idx ∈ l, P idx ∧ c = f idx) := by
  intro l
  induction l with
  | nil =>
    intro acc c
    simp
  | cons i l ih =>
    intro acc c
    rw [List.foldl_cons]
    by_cases hp : P i
    · rw [if_pos hp, ih, mem_insertCellSet]
      constructor
      · rintro ((hc | rfl) | ⟨idx, hidx, hpi, hc⟩)
        · exact Or.inl hc
        · exact Or.inr ⟨i, List.mem_cons_self i l, hp, rfl⟩
        · exact Or.inr ⟨idx, List.mem_cons_of_mem _ hidx, hpi, hc⟩
      · rintro (hc | ⟨idx, hidx, hpi, hc⟩)
        · exact Or.inl (Or.inl hc)
        · rcases List.mem_cons.mp hidx with h | h
          · subst h
            exact Or.inl (Or.inr hc)
          · exact Or.inr ⟨idx, h, hpi, hc⟩
    · rw [if_neg hp, ih]
      constructor
      · rintro (hc | ⟨idx, hidx, hpi, hc⟩)
        · exact Or.inl hc
        · exact Or.inr ⟨idx, List.mem_cons_of_mem _ hidx, hpi, hc⟩
      · rintro (hc | ⟨idx, hidx, hpi, hc⟩)
        · exact Or.inl hc
        · rcases List.mem_cons.mp hidx with h | h
          · subst h
            exact absurd hpi hp
          · exact Or.inr ⟨idx, h, hpi, hc⟩

/-- C6: setMap adopts a first map with no pending updates; a dimension
change performs a full planner reset with pending updates cleared; and with
identical dimensions the cells added to pending updates are exactly those
whose blocked-state (value at least 1, or value -1) differs between the old
and the new grid. -/
theorem dslSetMap_contract (s : DState) (g : Grid) :
    (s.hasMap = false →
      (dslSetMap s g).map = g ∧ (dslSetMap s g).pendingUpdates = [] ∧
      (dslSetMap s g).hasMap = true) ∧
    (s.hasMap = true → (s.map.width ≠ g.width ∨ s.map.height ≠ g.height) →
      (dslSetMap s g).map = g ∧ (dslSetMap s g).pendingUpdates = [] ∧
      (dslSetMap s g).openList = [] ∧ (dslSetMap s g).nodeInfo = [] ∧
      (dslSetMap s g).openTable = [] ∧ (dslSetMap s g).keyModifier = 0 ∧
      (dslSetMap s g).initialized = false) ∧
    (s.hasMap = true → s.map.width = g.width → s.map.height = g.height →
      (dslSetMap s g).map = g ∧
      ∀ c : Cell, c ∈ (dslSetMap s g).pendingUpdates ↔
        c ∈ s.pendingUpdates ∨
        ∃ idx ∈ List.range (min s.map.cells.length g.cells.length),
          ((decide (1 ≤ s.map.cells.getD idx 0) || decide (s.map.cells.getD idx 0 = -1)) ≠
           (decide (1 ≤ g.cells.getD idx 0) || decide (g.cells.getD idx 0 = -1))) ∧
          c = (((idx % g.width : ℕ) : ℤ), ((idx / g.width : ℕ) : ℤ))) := by
  refine ⟨?_, ?_, ?_⟩
  · intro h
    unfold dslSetMap
    rw [if_pos h]
    exact ⟨rfl, rfl, rfl⟩
  · intro h hd
    unfold dslSetMap
    rw [if_neg (show ¬ s.hasMap = false by simp [h]), if_pos hd]
    exact ⟨rfl, rfl, rfl, rfl, rfl, rfl, rfl⟩
  · intro h hw hh
    unfold dslSetMap
    rw [if_neg (show ¬ s.hasMap = false by simp [h]),
      if_neg (show ¬ (s.map.width ≠ g.width ∨ s.map.height ≠ g.height) from
        fun hc => hc.elim (fun hx => hx hw) (fun hx => hx hh))]
    dsimp only
    exact ⟨rfl, fun c => mem_foldl_insertIf _ _ _ c⟩

/-- C6 witness: starting from a planner holding an all-free 2x1 grid, a
setMap with the same dimensions that blocks cell (0,0) records (0,0) as a
pending update. -/
theorem dslSetMap_contract_witness :
    (0, 0) ∈ (dslSetMap (dslSetMap dslInit (gridFree 2 1)) ⟨2, 1, [1, 0]⟩).pendingUpdates := by
  have h := (dslSetMap_contract (dslSetMap dslInit (gridFree 2 1)) ⟨2, 1, [1, 0]⟩).2.2 rfl rfl rfl
  exact (h.2 (0, 0)).mpr (Or.inr ⟨0, by decide, by decide, by decide⟩)

/-! ### A* search invariants and path reconstruction (C2, C4) -/

theorem alistLookup_isSome_iff {α : Type} (l : List (Cell × α)) (c : Cell) :
    (alistLookup l c).isSome = true ↔ c ∈ l.map Prod.fst := by
  induction l with
  | nil =>
    rw [alistLookup_nil]
    simp
  | cons e l ih =>
    rw [alistLookup_cons, List.map_cons]
    by_cases h : e.1 = c
    · rw [if_pos h]
      constructor
      · intro _
        rw [← h]
        exact List.mem_cons_self _ _
      · intro _
        rfl
    · rw [if_neg h]
      constructor
      · intro hh
        exact List.mem_cons_of_mem _ (ih.mp hh)
      · intro hh
        rcases List.mem_cons.mp hh with h1 | h1
        · exact absurd h1.symm h
        · exact ih.mpr h1

theorem popMin_mem : ∀ (l : List ANode) (a : ANode) (r : List ANode),
    popMin l = some (a, r) → a ∈ l := by
  intro l
  induction l with
  | nil => exact fun a r h => Option.noConfusion h
  | cons x xs ih =>
    intro a r h
    unfold popMin at h
    cases hp : popMin xs with
    | none =>
      rw [hp] at h
      dsimp only at h
      injection h with h
      injection h with h1 h2
      rw [← h1]
      exact List.mem_cons_self _ _
    | some pr =>
      obtain ⟨b, bs⟩ := pr
      rw [hp] at h
      dsimp only at h
      by_cases hle : x.f ≤ b.f
      · rw [if_pos hle] at h
        injection h with h
        injection h with h1 h2
        rw [← h1]
        exact List.mem_cons_self _ _
      · rw [if_neg hle] at h
        injection h with h
        injection h with h1 h2
        rw [← h1]
        exact List.mem_cons_of_mem _ (ih b bs hp)

theorem popMin_rest_subset : ∀ (l : List ANode) (a : ANode) (r : List ANode),
    popMin l = some (a, r) → ∀ x ∈ r, x ∈ l := by
  intro l
  induction l with
  | nil => exact fun a r h => Option.noConfusion h
  | cons y xs ih =>
    intro a r h x hx
    unfold popMin at h
    cases hp : popMin xs with
    | none =>
      rw [hp] at h
      dsimp only at h
      injection h with h
      injection h with h1 h2
      rw [← h2] at hx
      exact absurd hx (List.not_mem_nil x)
    | some pr =>
      obtain ⟨b, bs⟩ := pr
      rw [hp] at h
      dsimp only at h
      by_cases hle : y.f ≤ b.f
      · rw [if_pos hle] at h
        injection h with h
        injection h with h1 h2
        rw [← h2] at hx
        exact List.mem_cons_of_mem _ hx
      · rw [if_neg hle] at h
        injection h with h
        injection h with h1 h2
        rw [← h2] at hx
        rcases List.mem_cons.mp hx with h3 | h3
        · rw [h3]
          exact List.mem_cons_self _ _
        · exact List.mem_cons_of_mem _ (ih b bs hp x h3)

/-- Every entry of the shared offset table is a Chebyshev-distance-1 move. -/
theorem neighborOffsets_cheb : ∀ o ∈ neighborOffsets, max |o.1| |o.2| = 1 := by decide

/-- The centre of a cell falls back into that cell under cellOf. -/
theorem cellOf_center (c : Cell) : cellOf (center c) = c := by
  have h1 : ∀ n : ℤ, ⌊(n : ℚ) + 1 / 2⌋ = n := by
    intro n
    rw [Int.floor_eq_iff]
    constructor
    · linarith
    · linarith
  exact Prod.ext (h1 c.1) (h1 c.2)

/-- Following cameFrom parents with fuel cameFrom.length + 1 reaches the
start: parents carry a strictly smaller gScore, so the chain never repeats a
cell and its length is bounded by the number of distinct cameFrom keys. -/
theorem chainParents_spec (startC : Cell)
    (cf : List (Cell × Cell)) (gsc : List (Cell × ℚ))
    (Hg : ∀ c p, alistLookup cf c = some p →
      ∃ qc qp, alistLookup gsc c = some qc ∧ alistLookup gsc p = some qp ∧ qp + 1 ≤ qc)
    (Hp : ∀ c p, alistLookup cf c = some p →
      p = startC ∨ (alistLookup cf p).isSome = true)
    (Hs : alistLookup cf startC = none) :
    ∀ (fuel : ℕ) (c : Cell),
      ((insert startC (cf.map Prod.fst).toFinset).filter
          (fun d => (alistLookup gsc d).getD 0 < (alistLookup gsc c).getD 0)).card + 1 ≤ fuel →
      ((alistLookup cf c).isSome = true ∨ c = startC) →
      (chainParents fuel cf c).head? = some c ∧
      (chainParents fuel cf c).getLast? = some startC ∧
      List.Chain' (fun a b => alistLookup cf a = some b) (chainParents fuel cf c) := by
  intro fuel
  induction fuel with
  | zero =>
    intro c hfuel _
    exact absurd hfuel (by omega)
  | succ fuel ih =>
    intro c hfuel hreach
    unfold chainParents
    cases hcf : alistLookup cf c with
    | none =>
      have hc : c = startC := by
        rcases hreach with h | h
        · rw [hcf] at h
          exact absurd h (by simp)
        · exact h
      subst hc
      refine ⟨rfl, ?_, ?_⟩
      · simp
      · exact List.chain'_singleton c
    | some p =>
      dsimp only
      obtain ⟨qc, qp, hqc, hqp, hle⟩ := Hg c p hcf
      have hgv : (alistLookup gsc p).getD 0 < (alistLookup gsc c).getD 0 := by
        rw [hqc, hqp]
        simp only [Option.getD_some]
        linarith
      have hpK : p ∈ insert startC (cf.map Prod.fst).toFinset := by
        rcases Hp c p hcf with h | h
        · rw [h]
          exact Finset.mem_insert_self _ _
        · refine Finset.mem_insert_of_mem ?_
          rw [List.mem_toFinset]
          exact (alistLookup_isSome_iff cf p).mp h
      have hsub : (insert startC (cf.map Prod.fst).toFinset).filter
            (fun d => (alistLookup gsc d).getD 0 < (alistLookup gsc p).getD 0) ⊆
          (insert startC (cf.map Prod.fst).toFinset).filter
            (fun d => (alistLookup gsc d).getD 0 < (alistLookup gsc c).getD 0) := by
        intro d hd
        rw [Finset.mem_filter] at hd ⊢
        exact ⟨hd.1, hd.2.trans hgv⟩
      have hmem : p ∈ (insert startC (cf.map Prod.fst).toFinset).filter
          (fun d => (alistLookup gsc d).getD 0 < (alistLookup gsc c).getD 0) :=
        Finset.mem_filter.mpr ⟨hpK, hgv⟩
      have hns : p ∉ (insert startC (cf.map Prod.fst).toFinset).filter
          (fun d => (alistLookup gsc d).getD 0 < (alistLookup gsc p).getD 0) := by
        intro hh
        exact absurd (Finset.mem_filter.mp hh).2 (lt_irrefl _)
      have hcard : ((insert startC (cf.map Prod.fst).toFinset).filter
            (fun d => (alistLookup gsc d).getD 0 < (alistLookup gsc p).getD 0)).card <
          ((insert startC (cf.map Prod.fst).toFinset).filter
            (fun d => (alistLookup gsc d).getD 0 < (alistLookup gsc c).getD 0)).card :=
        Finset.card_lt_card ⟨hsub, fun hsup => hns (hsup hmem)⟩
      obtain ⟨ihh, ihl, ihc⟩ := ih p (by omega) (by
        rcases Hp c p hcf with h | h
        · exact Or.inr h
        · exact Or.inl h)
      cases hch : chainParents fuel cf p with
      | nil =>
        rw [hch] at ihh
        exact absurd ihh (by simp)
      | cons q l =>
        rw [hch] at ihh ihl ihc
        have hq : q = p := by
          simp only [List.head?_cons, Option.some.injEq] at ihh
          exact ihh
        subst hq
        refine ⟨rfl, ?_, ?_⟩
        · rw [List.getLast?_cons_cons]
          exact ihl
        · exact List.chain'_cons.mpr ⟨hcf, ihc⟩

/-- The successful relaxation step of the A* neighbour expansion preserves
the loop invariant. -/
theorem relax_inv (grid : Grid) (startC : Cell) (cur : ANode) (st : AState)
    (nbc : Cell) (tent fnew : ℚ)
    (hinv : AInv grid startC st)
    (hcg : (alistLookup st.gScore cur.cell).isSome = true)
    (hcc : cur.cell = startC ∨ (alistLookup st.cameFrom cur.cell).isSome = true)
    (hne : nbc ≠ cur.cell)
    (htrav : isTraversableCell grid nbc = true)
    (hcheb : max |nbc.1 - cur.cell.1| |nbc.2 - cur.cell.2| = 1)
    (hcorner : nbc.1 ≠ cur.cell.1 ∧ nbc.2 ≠ cur.cell.2 →
      isTraversableCell grid (nbc.1, cur.cell.2) = true ∧
      isTraversableCell grid (cur.cell.1, nbc.2) = true)
    (htent : ∃ q, alistLookup st.gScore cur.cell = some q ∧ 0 ≤ q ∧ q + 1 ≤ tent)
    (himp : ∀ gn, alistLookup st.gScore nbc = some gn → tent < gn) :
    AInv grid startC { st with
      cameFrom := alistUpsert st.cameFrom nbc cur.cell,
      gScore := alistUpsert st.gScore nbc tent,
      openList := st.openList ++ [⟨nbc, tent, fnew⟩] } ∧
    (alistLookup (alistUpsert st.gScore nbc tent) cur.cell).isSome = true ∧
    (cur.cell = startC ∨
      (alistLookup (alistUpsert st.cameFrom nbc cur.cell) cur.cell).isSome = true) := by
  obtain ⟨q0, hq0, hq0nn, hq0t⟩ := htent
  have hns : nbc ≠ startC := by
    intro hh
    have h0 : alistLookup st.gScore nbc = some 0 := by
      rw [hh]
      exact hinv.gScore_start
    have := himp 0 h0
    linarith
  refine ⟨⟨?_, ?_, ?_, ?_, ?_, ?_, ?_, ?_⟩, ?_, ?_⟩
  · show alistLookup (alistUpsert st.gScore nbc tent) startC = some 0
    rw [alistLookup_upsert_ne _ (fun hh => hns hh.symm)]
    exact hinv.gScore_start
  · intro c q hq
    dsimp only at hq
    by_cases hc : c = nbc
    · subst hc
      rw [alistLookup_upsert_self] at hq
      injection hq with hq
      rw [← hq]
      linarith
    · rw [alistLookup_upsert_ne _ hc] at hq
      exact hinv.gScore_nonneg c q hq
  · intro c p hp
    dsimp only at hp
    by_cases hc : c = nbc
    · subst hc
      rw [alistLookup_upsert_self] at hp
      injection hp with hp
      subst hp
      exact ⟨htrav, hcheb, hcorner⟩
    · rw [alistLookup_upsert_ne _ hc] at hp
      exact hinv.cf_legal c p hp
  · intro c p hp
    dsimp only at hp ⊢
    by_cases hc : c = nbc
    · subst hc
      rw [alistLookup_upsert_self] at hp
      injection hp with hp
      subst hp
      refine ⟨tent, q0, alistLookup_upsert_self _ _ _, ?_, hq0t⟩
      rw [alistLookup_upsert_ne _ (fun hh : cur.cell = c => hne hh.symm)]
      exact hq0
    · rw [alistLookup_upsert_ne _ hc] at hp
      obtain ⟨qc, qp, hqc, hqp, hle⟩ := hinv.cf_g c p hp
      by_cases hpn : p = nbc
      · refine ⟨qc, tent, ?_, ?_, ?_⟩
        · rw [alistLookup_upsert_ne _ hc]
          exact hqc
        · rw [hpn, alistLookup_upsert_self]
        · have := himp qp (by rw [← hpn]; exact hqp)
          linarith
      · refine ⟨qc, qp, ?_, ?_, hle⟩
        · rw [alistLookup_upsert_ne _ hc]
          exact hqc
        · rw [alistLookup_upsert_ne _ hpn]
          exact hqp
  · intro c p hp
    dsimp only at hp ⊢
    by_cases hc : c = nbc
    · subst hc
      rw [alistLookup_upsert_self] at hp
      injection hp with hp
      subst hp
      rcases hcc with h | h
      · exact Or.inl h
      · refine Or.inr ?_
        rw [alistLookup_upsert_ne _ (fun hh : cur.cell = c => hne hh.symm)]
        exact h
    · rw [alistLookup_upsert_ne _ hc] at hp
      rcases hinv.cf_parent c p hp with h | h
      · exact Or.inl h
      · exact Or.inr (alistLookup_upsert_isSome _ _ _ _ h)
  · show alistLookup (alistUpsert st.cameFrom nbc cur.cell) startC = none
    rw [alistLookup_upsert_ne _ (fun hh => hns hh.symm)]
    exact hinv.cf_start
  · intro n hn
    dsimp only at hn ⊢
    rcases List.mem_append.mp hn with h | h
    · rcases hinv.open_covered n h with h1 | h1
      · exact Or.inl h1
      · exact Or.inr (alistLookup_upsert_isSome _ _ _ _ h1)
    · have hne2 : n = ⟨nbc, tent, fnew⟩ := by simpa using h
      subst hne2
      refine Or.inr ?_
      show (alistLookup (alistUpsert st.cameFrom nbc cur.cell) nbc).isSome = true
      rw [alistLookup_upsert_self]
      rfl
  · intro n hn
    dsimp only at hn ⊢
    rcases List.mem_append.mp hn with h | h
    · exact alistLookup_upsert_isSome _ _ _ _ (hinv.open_g n h)
    · have hne2 : n = ⟨nbc, tent, fnew⟩ := by simpa using h
      subst hne2
      show (alistLookup (alistUpsert st.gScore nbc tent) nbc).isSome = true
      rw [alistLookup_upsert_self]
      rfl
  · exact alistLookup_upsert_isSome _ _ _ _ hcg
  · rcases hcc with h | h
    · exact Or.inl h
    · exact Or.inr (alistLookup_upsert_isSome _ _ _ _ h)

/-- One neighbour visit of the A* expansion preserves the loop invariant and
the facts about the expanded node. -/
theorem expandNeighbor_inv (grid : Grid) (startC goalC : Cell) (cur : ANode) (o : Cell)
    (ho1 : max |o.1| |o.2| = 1) (st : AState)
    (hinv : AInv grid startC st)
    (hcg : (alistLookup st.gScore cur.cell).isSome = true)
    (hcc : cur.cell = startC ∨ (alistLookup st.cameFrom cur.cell).isSome = true) :
    AInv grid startC (expandNeighbor grid goalC cur st o) ∧
    (alistLookup (expandNeighbor grid goalC cur st o).gScore cur.cell).isSome = true ∧
    (cur.cell = startC ∨
      (alistLookup (expandNeighbor grid goalC cur st o).cameFrom cur.cell).isSome = true) := by
  unfold expandNeighbor
  dsimp only
  by_cases h1 : ¬ (isCellWithinBounds grid (cur.cell.1 + o.1, cur.cell.2 + o.2) = true) ∨
      ¬ (isTraversableCell grid (cur.cell.1 + o.1, cur.cell.2 + o.2) = true)
  · rw [if_pos h1]
    exact ⟨hinv, hcg, hcc⟩
  · rw [if_neg h1]
    push_neg at h1
    by_cases h2 : (decide (o.1 ≠ 0) && decide (o.2 ≠ 0)) = true ∧
        (¬ (isCellWithinBounds grid (cur.cell.1 + o.1, cur.cell.2) = true) ∨
         ¬ (isCellWithinBounds grid (cur.cell.1, cur.cell.2 + o.2) = true) ∨
         ¬ (isTraversableCell grid (cur.cell.1 + o.1, cur.cell.2) = true) ∨
         ¬ (isTraversableCell grid (cur.cell.1, cur.cell.2 + o.2) = true))
    · rw [if_pos h2]
      exact ⟨hinv, hcg, hcc⟩
    · rw [if_neg h2]
      have hne : (cur.cell.1 + o.1, cur.cell.2 + o.2) ≠ cur.cell := by
        intro hh
        have hfst := congrArg Prod.fst hh
        have hsnd := congrArg Prod.snd hh
        dsimp at hfst hsnd
        have ho1z : o.1 = 0 := by omega
        have ho2z : o.2 = 0 := by omega
        rw [ho1z, ho2z] at ho1
        simp at ho1
      have hcheb : max |(cur.cell.1 + o.1, cur.cell.2 + o.2).1 - cur.cell.1|
          |(cur.cell.1 + o.1, cur.cell.2 + o.2).2 - cur.cell.2| = 1 := by
        dsimp only
        rw [show cur.cell.1 + o.1 - cur.cell.1 = o.1 by ring,
          show cur.cell.2 + o.2 - cur.cell.2 = o.2 by ring]
        exact ho1
      have hcorner : (cur.cell.1 + o.1, cur.cell.2 + o.2).1 ≠ cur.cell.1 ∧
          (cur.cell.1 + o.1, cur.cell.2 + o.2).2 ≠ cur.cell.2 →
          isTraversableCell grid ((cur.cell.1 + o.1, cur.cell.2 + o.2).1, cur.cell.2) = true ∧
          isTraversableCell grid (cur.cell.1, (cur.cell.1 + o.1, cur.cell.2 + o.2).2) = true := by
        intro hd
        dsimp only at hd ⊢
        have ho1n : o.1 ≠ 0 := fun hh => hd.1 (by omega)
        have ho2n : o.2 ≠ 0 := fun hh => hd.2 (by omega)
        have hdiag : (decide (o.1 ≠ 0) && decide (o.2 ≠ 0)) = true := by
          simp [ho1n, ho2n]
        push_neg at h2
        obtain ⟨hb1, hb2, ht1, ht2⟩ := h2 hdiag
        exact ⟨ht1, ht2⟩
      cases hgnb : alistLookup st.gScore (cur.cell.1 + o.1, cur.cell.2 + o.2) with
      | none =>
        dsimp only
        rw [if_pos rfl]
        refine relax_inv grid startC cur st _ _ _ hinv hcg hcc hne h1.2 hcheb hcorner ?_
          (fun gn hgn => absurd hgn (by rw [hgnb]; exact fun hh => Option.noConfusion hh))
        obtain ⟨q, hq⟩ := Option.isSome_iff_exists.mp hcg
        refine ⟨q, hq, hinv.gScore_nonneg _ _ hq, ?_⟩
        rw [hq]
        simp only [Option.getD_some]
        have := one_le_traversalCost grid (cur.cell.1 + o.1, cur.cell.2 + o.2)
          (decide (o.1 ≠ 0) && decide (o.2 ≠ 0))
        linarith
      | some gn =>
        dsimp only
        simp only [decide_eq_true_eq]
        by_cases h3 : (alistLookup st.gScore cur.cell).getD 0 +
            traversalCost grid (cur.cell.1 + o.1, cur.cell.2 + o.2)
              (decide (o.1 ≠ 0) && decide (o.2 ≠ 0)) < gn
        · rw [if_pos h3]
          refine relax_inv grid startC cur st _ _ _ hinv hcg hcc hne h1.2 hcheb hcorner ?_
            (fun gn' hgn' => by
              rw [hgnb] at hgn'
              injection hgn' with hh
              rw [← hh]
              exact h3)
          obtain ⟨q, hq⟩ := Option.isSome_iff_exists.mp hcg
          refine ⟨q, hq, hinv.gScore_nonneg _ _ hq, ?_⟩
          rw [hq]
          simp only [Option.getD_some]
          have := one_le_traversalCost grid (cur.cell.1 + o.1, cur.cell.2 + o.2)
            (decide (o.1 ≠ 0) && decide (o.2 ≠ 0))
          linarith
        · rw [if_neg h3]
          exact ⟨hinv, hcg, hcc⟩

theorem foldl_expandNeighbor_inv (grid : Grid) (startC goalC : Cell) (cur : ANode) :
    ∀ (l : List Cell), (∀ o ∈ l, max |o.1| |o.2| = 1) → ∀ (st : AState),
      AInv grid startC st →
      (alistLookup st.gScore cur.cell).isSome = true →
      (cur.cell = startC ∨ (alistLookup st.cameFrom cur.cell).isSome = true) →
      AInv grid startC (l.foldl (expandNeighbor grid goalC cur) st) := by
  intro l
  induction l with
  | nil => exact fun _ st hinv _ _ => hinv
  | cons o l ih =>
    intro ho st hinv hcg hcc
    rw [List.foldl_cons]
    obtain ⟨j1, j2, j3⟩ := expandNeighbor_inv grid startC goalC cur o
      (ho o (List.mem_cons_self o l)) st hinv hcg hcc
    exact ih (fun o' ho' => ho o' (List.mem_cons_of_mem _ ho')) _ j1 j2 j3

theorem astarInit_inv (grid : Grid) (startC goalC : Cell) :
    AInv grid startC (astarInit startC goalC) := by
  unfold astarInit
  refine ⟨?_, ?_, ?_, ?_, ?_, ?_, ?_, ?_⟩
  · show alistLookup [(startC, (0 : ℚ))] startC = some 0
    rw [alistLookup_cons, if_pos rfl]
  · intro c q hq
    dsimp only at hq
    rw [alistLookup_cons] at hq
    by_cases h : startC = c
    · rw [if_pos h] at hq
      injection hq with hq
      exact le_of_eq hq
    · rw [if_neg h] at hq
      rw [alistLookup_nil] at hq
      exact Option.noConfusion hq
  · intro c p hp
    dsimp only at hp
    rw [alistLookup_nil] at hp
    exact Option.noConfusion hp
  · intro c p hp
    dsimp only at hp
    rw [alistLookup_nil] at hp
    exact Option.noConfusion hp
  · intro c p hp
    dsimp only at hp
    rw [alistLookup_nil] at hp
    exact Option.noConfusion hp
  · show alistLookup ([] : List (Cell × Cell)) startC = none
    rfl
  · intro n hn
    dsimp only at hn
    have hn2 : n = ⟨startC, 0, heuristic startC goalC⟩ := by simpa using hn
    subst hn2
    exact Or.inl rfl
  · intro n hn
    dsimp only at hn
    have hn2 : n = ⟨startC, 0, heuristic startC goalC⟩ := by simpa using hn
    subst hn2
    show (alistLookup [(startC, (0 : ℚ))] startC).isSome = true
    rw [alistLookup_cons, if_pos rfl]
    rfl

/-- Whenever the A* main loop returns a path, that path starts at the start
cell, ends at the goal cell, and every consecutive step is a legal
8-connected move respecting the diagonal corner rule. -/
theorem astarLoop_props (grid : Grid) (startC goalC : Cell) :
    ∀ (fuel : ℕ) (st : AState) (cells : List Cell) (explored : List Cell),
      AInv grid startC st →
      astarLoop grid goalC fuel st = (some cells, explored) →
      cells.head? = some startC ∧ cells.getLast? = some goalC ∧
      List.Chain' (LegalStep grid) cells := by
  intro fuel
  induction fuel with
  | zero =>
    intro st cells explored hinv heq
    unfold astarLoop at heq
    exact Option.noConfusion (congrArg Prod.fst heq)
  | succ fuel ih =>
    intro st cells explored hinv heq
    unfold astarLoop at heq
    cases hpop : popMin st.openList with
    | none =>
      rw [hpop] at heq
      dsimp only at heq
      exact Option.noConfusion (congrArg Prod.fst heq)
    | some pr =>
      obtain ⟨cur, rest⟩ := pr
      rw [hpop] at heq
      dsimp only at heq
      by_cases hclosed : cur.cell ∈ st.closed
      · rw [if_pos hclosed] at heq
        refine ih _ _ _ ?_ heq
        obtain ⟨f1, f2, f3, f4, f5, f6, f7, f8⟩ := hinv
        exact ⟨f1, f2, f3, f4, f5, f6,
          fun n hn => f7 n (popMin_rest_subset _ _ _ hpop n hn),
          fun n hn => f8 n (popMin_rest_subset _ _ _ hpop n hn)⟩
      · rw [if_neg hclosed] at heq
        by_cases hgoal : cur.cell = goalC
        · rw [if_pos hgoal] at heq
          have hcells : reconstructPath st.cameFrom cur.cell = cells := by
            have h := congrArg Prod.fst heq
            dsimp only at h
            injection h with h
          have hcov : (alistLookup st.cameFrom cur.cell).isSome = true ∨ cur.cell = startC := by
            rcases hinv.open_covered cur (popMin_mem _ _ _ hpop) with h | h
            · exact Or.inr h
            · exact Or.inl h
          have hx : cur.cell ∈ insert startC (st.cameFrom.map Prod.fst).toFinset := by
            rcases hcov with h | h
            · refine Finset.mem_insert_of_mem ?_
              rw [List.mem_toFinset]
              exact (alistLookup_isSome_iff _ _).mp h
            · rw [h]
              exact Finset.mem_insert_self _ _
          have hbound : ((insert startC (st.cameFrom.map Prod.fst).toFinset).filter
              (fun d => (alistLookup st.gScore d).getD 0 <
                (alistLookup st.gScore cur.cell).getD 0)).card + 1 ≤
              st.cameFrom.length + 1 := by
            have hsub : (insert startC (st.cameFrom.map Prod.fst).toFinset).filter
                (fun d => (alistLookup st.gScore d).getD 0 <
                  (alistLookup st.gScore cur.cell).getD 0) ⊆
                (insert startC (st.cameFrom.map Prod.fst).toFinset).erase cur.cell := by
              intro d hd
              rw [Finset.mem_filter] at hd
              rw [Finset.mem_erase]
              refine ⟨?_, hd.1⟩
              intro hdc
              rw [hdc] at hd
              exact absurd hd.2 (lt_irrefl _)
            have hc1 := Finset.card_le_card hsub
            have hc2 := Finset.card_erase_of_mem hx
            have hc3 := Finset.card_insert_le startC (st.cameFrom.map Prod.fst).toFinset
            have hc4 : (st.cameFrom.map Prod.fst).toFinset.card ≤ st.cameFrom.length := by
              refine le_trans (List.toFinset_card_le _) ?_
              rw [List.length_map]
            omega
          obtain ⟨hh, hl, hc⟩ := chainParents_spec startC st.cameFrom st.gScore
            hinv.cf_g hinv.cf_parent hinv.cf_start (st.cameFrom.length + 1) cur.cell
            hbound hcov
          refine ⟨?_, ?_, ?_⟩
          · rw [← hcells]
            show (chainParents (st.cameFrom.length + 1) st.cameFrom cur.cell).reverse.head? =
              some startC
            rw [List.head?_reverse]
            exact hl
          · rw [← hcells]
            show (chainParents (st.cameFrom.length + 1) st.cameFrom cur.cell).reverse.getLast? =
              some goalC
            rw [List.getLast?_reverse, hh, hgoal]
          · rw [← hcells]
            show List.Chain' (LegalStep grid)
              (chainParents (st.cameFrom.length + 1) st.cameFrom cur.cell).reverse
            rw [List.chain'_reverse]
            exact hc.imp (fun a b hab => hinv.cf_legal a b hab)
        · rw [if_neg hgoal] at heq
          refine ih _ _ _ ?_ heq
          have hsubs := popMin_rest_subset _ _ _ hpop
          have hmem := popMin_mem _ _ _ hpop
          obtain ⟨f1, f2, f3, f4, f5, f6, f7, f8⟩ := hinv
          exact foldl_expandNeighbor_inv grid startC goalC cur neighborOffsets
            neighborOffsets_cheb _
            ⟨f1, f2, f3, f4, f5, f6, fun n hn => f7 n (hsubs n hn),
              fun n hn => f8 n (hsubs n hn)⟩
            (f8 cur hmem) (f7 cur hmem)

/-- A legal A* step between cell centres satisfies the diagonal corner rule
on waypoints. -/
theorem legalStep_diagOK (g : Grid) (a b : Cell) (h : LegalStep g a b) :
    DiagOK g (center a) (center b) := by
  unfold DiagOK
  rw [cellOf_center, cellOf_center]
  intro hd
  exact h.2.2 hd

/-- Cells returned by getNeighbors are traversable and, if diagonal,
their two squeeze cells are traversable. -/
theorem dslGetNeighbors_corner (s : DState) (c b : Cell) (h : b ∈ dslGetNeighbors s c) :
    isTraversableCell s.map b = true ∧
    (b.1 ≠ c.1 ∧ b.2 ≠ c.2 →
      isTraversableCell s.map (b.1, c.2) = true ∧
      isTraversableCell s.map (c.1, b.2) = true) := by
  unfold dslGetNeighbors at h
  rw [List.mem_filterMap] at h
  obtain ⟨o, ho, hf⟩ := h
  dsimp only at hf
  by_cases h1 : ¬ (isCellWithinBounds s.map (c.1 + o.1, c.2 + o.2) = true)
  · rw [if_pos h1] at hf
    exact Option.noConfusion hf
  · rw [if_neg h1] at hf
    by_cases h2 : (decide (o.1 ≠ 0) && decide (o.2 ≠ 0)) = true ∧
        (¬ (isCellWithinBounds s.map (c.1 + o.1, c.2) = true) ∨
         ¬ (isCellWithinBounds s.map (c.1, c.2 + o.2) = true) ∨
         ¬ (isTraversableCell s.map (c.1 + o.1, c.2) = true) ∨
         ¬ (isTraversableCell s.map (c.1, c.2 + o.2) = true))
    · rw [if_pos h2] at hf
      exact Option.noConfusion hf
    · rw [if_neg h2] at hf
      by_cases h3 : ¬ (isTraversableCell s.map (c.1 + o.1, c.2 + o.2) = true)
      · rw [if_pos h3] at hf
        exact Option.noConfusion hf
      · rw [if_neg h3] at hf
        injection hf with hf
        subst hf
        constructor
        · exact not_not.mp h3
        · intro hd
          dsimp only at hd
          have ho1n : o.1 ≠ 0 := fun hh => hd.1 (by omega)
          have ho2n : o.2 ≠ 0 := fun hh => hd.2 (by omega)
          have hdiag : (decide (o.1 ≠ 0) && decide (o.2 ≠ 0)) = true := by
            simp [ho1n, ho2n]
          push_neg at h2
          obtain ⟨hb1, hb2, ht1, ht2⟩ := h2 hdiag
          exact ⟨ht1, ht2⟩

theorem diag_of_neighbor (s : DState) (a b : Cell) (h : b ∈ dslGetNeighbors s a) :
    DiagOK s.map (center a) (center b) := by
  obtain ⟨htrav, hcorner⟩ := dslGetNeighbors_corner s a b h
  unfold DiagOK
  rw [cellOf_center, cellOf_center]
  intro hd
  exact hcorner hd

/-- The greedy best-neighbour fold only ever selects the seed cell or a
member of the candidate list. -/
theorem greedy_fold_mem (s : DState) (current : Cell) (S : List Cell) :
    ∀ (l : List Cell), (∀ y ∈ l, y ∈ S) → ∀ (acc : QInf × Cell),
      acc.2 = current ∨ acc.2 ∈ S →
      ((l.foldl (fun (acc : QInf × Cell) nb =>
          if dslEdgeCost s current nb = ⊤ then acc
          else if dslEdgeCost s current nb + dslG s nb < acc.1
            then (dslEdgeCost s current nb + dslG s nb, nb) else acc) acc).2 = current ∨
       (l.foldl (fun (acc : QInf × Cell) nb =>
          if dslEdgeCost s current nb = ⊤ then acc
          else if dslEdgeCost s current nb + dslG s nb < acc.1
            then (dslEdgeCost s current nb + dslG s nb, nb) else acc) acc).2 ∈ S) := by
  intro l
  induction l with
  | nil => exact fun _ acc h => h
  | cons y l ih =>
    intro hS acc hacc
    rw [List.foldl_cons]
    refine ih (fun z hz => hS z (List.mem_cons_of_mem _ hz)) _ ?_
    dsimp only
    split
    · exact hacc
    · split
      · exact Or.inr (hS y (List.mem_cons_self y l))
      · exact hacc

theorem greedyStep_mem (s : DState) (current next : Cell)
    (h : greedyStep s current = some next) : next ∈ dslGetNeighbors s current := by
  unfold greedyStep at h
  dsimp only at h
  split at h
  · exact Option.noConfusion h
  · rename_i hcond
    injection h with h
    subst h
    push_neg at hcond
    have hm := greedy_fold_mem s current (dslGetNeighbors s current)
      (dslGetNeighbors s current) (fun y hy => hy) (⊤, current) (Or.inl rfl)
    rcases hm with h | h
    · exact absurd h hcond.1
    · exact h

/-- The greedy reconstruction loop produces a list chained by the neighbour
relation. -/
theorem greedyWalk_chain (s : DState) :
    ∀ (n : ℕ) (current : Cell) (acc cells : List Cell),
      acc.getLast? = some current →
      List.Chain' (fun a b => b ∈ dslGetNeighbors s a) acc →
      greedyWalk s n current acc = some cells →
      List.Chain' (fun a b => b ∈ dslGetNeighbors s a) cells := by
  intro n
  induction n with
  | zero =>
    intro current acc cells hlast hch heq
    unfold greedyWalk at heq
    split at heq
    · injection heq with heq
      subst heq
      exact hch
    · exact Option.noConfusion heq
  | succ n ih =>
    intro current acc cells hlast hch heq
    unfold greedyWalk at heq
    split at heq
    · injection heq with heq
      subst heq
      exact hch
    · cases hstep : greedyStep s current with
      | none =>
        rw [hstep] at heq
        exact Option.noConfusion heq
      | some next =>
        rw [hstep] at heq
        dsimp only at heq
        refine ih next (acc ++ [next]) cells ?_ ?_ heq
        · rw [List.getLast?_concat]
        · refine List.chain'_append.mpr ⟨hch, List.chain'_singleton _, ?_⟩
          intro x hx y hy
          rw [hlast] at hx
          have hx2 : current = x := by simpa using hx
          have hy2 : next = y := by simpa using hy
          subst hx2
          subst hy2
          exact greedyStep_mem s current next hstep

theorem sameCore_map {s1 s2 : DState} (h : SameCore s1 s2) : s1.map = s2.map := h.1

/-- The computePath search pipeline never changes the planner grid. -/
theorem dslPipeline_map (s2 : DState) :
    (computeShortestPath (cspFuel (updateVertex (applyPendingUpdates s2)
        (applyPendingUpdates s2).startCell))
      (updateVertex (applyPendingUpdates s2)
        (applyPendingUpdates s2).startCell)).map = s2.map :=
  (sameCore_map (computeShortestPath_core _ _)).trans
    ((sameCore_map (updateVertex_core _ _)).trans
      (sameCore_map (applyPendingUpdates_core s2)))

/-- Any path delivered by the greedy walk satisfies the waypoint-level
diagonal corner rule. -/
theorem walk_diag_chain (s5 : DState) (g : Grid) (hm : s5.map = g) (n : ℕ) (c : Cell)
    (cells : List Cell) (h : greedyWalk s5 n c [c] = some cells) :
    List.Chain' (DiagOK g) (cells.map center) := by
  subst hm
  have hch := greedyWalk_chain s5 n c [c] cells (by simp)
    (List.chain'_singleton c) h
  rw [List.chain'_map]
  exact hch.imp (fun a b hab => diag_of_neighbor s5 a b hab)

/-- C2: AStarPlanner.computePath's contract: on success the waypoints run
from the centre of the start cell to the centre of the goal cell; on failure
the waypoints are empty; invalid endpoints give an empty failed result with
no explored cells; and start = goal gives the single-waypoint path with
explored cells [start]. -/
theorem astar_contract (g : Grid) (startC goalC : Cell) :
    ((astarComputePath g startC goalC).success = true →
      (astarComputePath g startC goalC).waypoints.head? = some (center startC) ∧
      (astarComputePath g startC goalC).waypoints.getLast? = some (center goalC)) ∧
    ((astarComputePath g startC goalC).success = false →
      (astarComputePath g startC goalC).waypoints = []) ∧
    (¬ (isCellWithinBounds g startC = true) ∨ ¬ (isCellWithinBounds g goalC = true) ∨
      ¬ (isTraversableCell g startC = true) ∨ ¬ (isTraversableCell g goalC = true) →
      astarComputePath g startC goalC =
        { waypoints := [], exploredCells := [], success := false }) ∧
    (isCellWithinBounds g startC = true → isCellWithinBounds g goalC = true →
      isTraversableCell g startC = true → isTraversableCell g goalC = true →
      startC = goalC →
      astarComputePath g startC goalC =
        { waypoints := [center startC], exploredCells := [startC], success := true }) := by
  refine ⟨?_, ?_, ?_, ?_⟩
  · intro ht
    unfold astarComputePath at ht ⊢
    dsimp only at ht ⊢
    have hne : (astarSolve g startC goalC).1 ≠ [] := of_decide_eq_true ht
    unfold astarSolve at hne ⊢
    by_cases hb : ¬ (isCellWithinBounds g startC = true) ∨
        ¬ (isCellWithinBounds g goalC = true)
    · rw [if_pos hb] at hne ⊢
      exact absurd rfl hne
    · rw [if_neg hb] at hne ⊢
      by_cases htv : ¬ (isTraversableCell g startC = true) ∨
          ¬ (isTraversableCell g goalC = true)
      · rw [if_pos htv] at hne ⊢
        exact absurd rfl hne
      · rw [if_neg htv] at hne ⊢
        by_cases hsg : startC = goalC
        · rw [if_pos hsg] at hne ⊢
          constructor
          · rfl
          · show ([center startC] : List Point).getLast? = some (center goalC)
            rw [hsg]
            simp
        · rw [if_neg hsg] at hne ⊢
          cases hloop : astarLoop g goalC (8 * g.cellCount + 2) (astarInit startC goalC) with
          | mk res expl =>
            rw [hloop] at hne
            cases res with
            | none =>
              dsimp only at hne ⊢
              exact absurd rfl hne
            | some cells =>
              dsimp only at hne ⊢
              obtain ⟨hh, hl, _⟩ := astarLoop_props g startC goalC _ _ _ _
                (astarInit_inv g startC goalC) hloop
              constructor
              · rw [List.head?_map, hh]
                rfl
              · rw [List.getLast?_map, hl]
                rfl
  · intro hf
    unfold astarComputePath at hf ⊢
    dsimp only at hf ⊢
    exact not_not.mp (of_decide_eq_false hf)
  · intro hbad
    unfold astarComputePath astarSolve
    dsimp only
    by_cases hb : ¬ (isCellWithinBounds g startC = true) ∨
        ¬ (isCellWithinBounds g goalC = true)
    · rw [if_pos hb]
      rfl
    · rw [if_neg hb]
      push_neg at hb
      have htv : ¬ (isTraversableCell g startC = true) ∨
          ¬ (isTraversableCell g goalC = true) := by
        rcases hbad with h | h | h | h
        · exact absurd hb.1 h
        · exact absurd hb.2 h
        · exact Or.inl h
        · exact Or.inr h
      rw [if_pos htv]
      rfl
  · intro h1 h2 h3 h4 h5
    unfold astarComputePath astarSolve
    dsimp only
    rw [if_neg (by push_neg; exact ⟨h1, h2⟩), if_neg (by push_neg; exact ⟨h3, h4⟩),
      if_pos h5]
    rfl

/-- C2 witness: on a free 2x1 grid with start = goal = (0,0), computePath
returns the single waypoint (0.5, 0.5) with explored cells [(0,0)] and
success. -/
theorem astar_contract_witness :
    astarComputePath (gridFree 2 1) (0, 0) (0, 0) =
      { waypoints := [center (0, 0)], exploredCells := [(0, 0)], success := true } :=
  (astar_contract (gridFree 2 1) (0, 0) (0, 0)).2.2.2 (by decide) (by decide)
    (by decide) (by decide) rfl

/-- C4: in every path returned by either planner, each diagonal step has
both squeeze neighbours traversable (hence in bounds) in the planning grid:
the waypoint polylines of both planners always satisfy the diagonal corner
rule between consecutive waypoints. -/
theorem diagonal_corner_rule (g : Grid) (startC goalC : Cell) (s : DState) :
    List.Chain' (DiagOK g) (astarComputePath g startC goalC).waypoints ∧
    List.Chain' (DiagOK s.map) (dslComputePath s).2.waypoints := by
  constructor
  · unfold astarComputePath astarSolve
    dsimp only
    by_cases hb : ¬ (isCellWithinBounds g startC = true) ∨
        ¬ (isCellWithinBounds g goalC = true)
    · rw [if_pos hb]
      exact List.chain'_nil
    · rw [if_neg hb]
      by_cases htv : ¬ (isTraversableCell g startC = true) ∨
          ¬ (isTraversableCell g goalC = true)
      · rw [if_pos htv]
        exact List.chain'_nil
      · rw [if_neg htv]
        by_cases hsg : startC = goalC
        · rw [if_pos hsg]
          exact List.chain'_singleton _
        · rw [if_neg hsg]
          cases hloop : astarLoop g goalC (8 * g.cellCount + 2) (astarInit startC goalC) with
          | mk res expl =>
            cases res with
            | none => exact List.chain'_nil
            | some cells =>
              dsimp only
              obtain ⟨_, _, hch⟩ := astarLoop_props g startC goalC _ _ _ _
                (astarInit_inv g startC goalC) hloop
              rw [List.chain'_map]
              exact hch.imp (fun a b hab => legalStep_diagOK g a b hab)
  · unfold dslComputePath
    dsimp only
    repeat' split
    all_goals first
      | exact List.chain'_nil
      | (rename_i cells h
         refine walk_diag_chain _ s.map ?_ _ _ cells h
         exact dslPipeline_map _)

/-! ### rhs(goal) pinning through the computePath pipeline (C10) -/

theorem dslRhs_setRhs_self (s : DState) (c : Cell) (v : QInf) :
    dslRhs (dslSetRhs s c v) c = v := by
  unfold dslRhs dslSetRhs
  dsimp only
  rw [alistLookup_upsert_self]

theorem dslRhs_setRhs_ne (s : DState) {c d : Cell} (h : d ≠ c) (v : QInf) :
    dslRhs (dslSetRhs s c v) d = dslRhs s d := by
  unfold dslRhs dslSetRhs
  dsimp only
  rw [alistLookup_upsert_ne _ h]

theorem dslRhs_setG_any (s : DState) (c d : Cell) (v : QInf) :
    dslRhs (dslSetG s c v) d = dslRhs s d := by
  by_cases h : d = c
  · subst h
    unfold dslRhs dslSetG
    dsimp only
    rw [alistLookup_upsert_self]
    cases hl : alistLookup s.nodeInfo d with
    | none => rfl
    | some nd => rfl
  · unfold dslRhs dslSetG
    dsimp only
    rw [alistLookup_upsert_ne _ h]

/-- updateVertex never un-pins rhs(goal) = 0. -/
theorem updateVertex_rhs_zero (s : DState) (c gc : Cell) (hg : s.goalCell = gc)
    (h : dslRhs s gc = 0) : dslRhs (updateVertex s c) gc = 0 := by
  subst hg
  unfold updateVertex
  dsimp only
  by_cases hc : c = s.goalCell
  · rw [if_pos hc]
    split
    · rw [← hc]
      exact dslRhs_setRhs_self s c 0
    · rw [← hc]
      exact dslRhs_setRhs_self s c 0
  · rw [if_neg hc]
    split
    · exact (dslRhs_setRhs_ne s (fun h' => hc h'.symm) _).trans h
    · exact (dslRhs_setRhs_ne s (fun h' => hc h'.symm) _).trans h

/-- updateVertex at the goal cell pins rhs(goal) to 0 unconditionally. -/
theorem updateVertex_pin (s : DState) (c : Cell) (hc : c = s.goalCell) :
    dslRhs (updateVertex s c) s.goalCell = 0 := by
  unfold updateVertex
  dsimp only
  rw [if_pos hc]
  split
  · rw [← hc]
    exact dslRhs_setRhs_self s c 0
  · rw [← hc]
    exact dslRhs_setRhs_self s c 0

theorem foldl_updateVertex_rhs_zero (gc : Cell) :
    ∀ (l : List Cell) (s : DState), s.goalCell = gc → dslRhs s gc = 0 →
      dslRhs (l.foldl updateVertex s) gc = 0 := by
  intro l
  induction l with
  | nil => exact fun s _ h => h
  | cons c l ih =>
    intro s hg h
    rw [List.foldl_cons]
    exact ih _ ((sameCore_goal (updateVertex_core s c)).trans hg)
      (updateVertex_rhs_zero s c gc hg h)

theorem applyPendingUpdates_rhs_zero (s : DState) (gc : Cell) (hg : s.goalCell = gc)
    (h : dslRhs s gc = 0) : dslRhs (applyPendingUpdates s) gc = 0 := by
  unfold applyPendingUpdates
  split
  · exact h
  · dsimp only
    exact foldl_updateVertex_rhs_zero gc _ _ hg h

theorem cspAux_rhs_zero (gc : Cell) : ∀ (fuel : ℕ) (s : DState),
    s.goalCell = gc → dslRhs s gc = 0 →
    dslRhs (computeShortestPathAux fuel s) gc = 0 := by
  intro fuel
  induction fuel with
  | zero => exact fun s _ h => h
  | succ fuel ih =>
    intro s hg h
    unfold computeShortestPathAux
    cases hpop : popOpenMin s.openList with
    | none => exact h
    | some pr =>
      obtain ⟨top, rest⟩ := pr
      dsimp only
      repeat' split
      all_goals first
        | exact h
        | exact ih _ hg h
        | exact ih _ ((sameCore_goal (foldl_updateVertex_core _ _)).trans hg)
            (foldl_updateVertex_rhs_zero gc _ _ hg ((dslRhs_setG_any _ _ _ _).trans h))
        | exact ih _ ((sameCore_goal (foldl_updateVertex_core _ _)).trans
              ((sameCore_goal (updateVertex_core _ _)).trans hg))
            (foldl_updateVertex_rhs_zero gc _ _
              ((sameCore_goal (updateVertex_core _ _)).trans hg)
              (updateVertex_rhs_zero _ top.cell gc hg ((dslRhs_setG_any _ _ _ _).trans h)))

theorem computeShortestPath_rhs_zero (fuel : ℕ) (s : DState) (gc : Cell)
    (hg : s.goalCell = gc) (h : dslRhs s gc = 0) :
    dslRhs (computeShortestPath fuel s) gc = 0 := by
  unfold computeShortestPath
  exact cspAux_rhs_zero gc fuel _ hg h

/-- The greedy reconstruction exits immediately when already at the goal. -/
theorem greedyWalk_at_goal (s : DState) (n : ℕ) (c : Cell) (acc : List Cell)
    (h : c = s.goalCell) : greedyWalk s n c acc = some acc := by
  cases n with
  | zero =>
    unfold greedyWalk
    rw [if_pos h]
  | succ n =>
    unfold greedyWalk
    rw [if_pos h]

/-- Start/goal preservation and rhs(goal)=0 for the applyPendingUpdates /
updateVertex(start) / computeShortestPath pipeline of computePath, when the
configured start equals the goal. -/
theorem dslPipeline_props (s2 : DState) (h2 : s2.startCell = s2.goalCell) :
    (computeShortestPath (cspFuel (updateVertex (applyPendingUpdates s2)
        (applyPendingUpdates s2).startCell))
      (updateVertex (applyPendingUpdates s2)
        (applyPendingUpdates s2).startCell)).startCell = s2.startCell ∧
    (computeShortestPath (cspFuel (updateVertex (applyPendingUpdates s2)
        (applyPendingUpdates s2).startCell))
      (updateVertex (applyPendingUpdates s2)
        (applyPendingUpdates s2).startCell)).goalCell = s2.goalCell ∧
    dslRhs (computeShortestPath (cspFuel (updateVertex (applyPendingUpdates s2)
        (applyPendingUpdates s2).startCell))
      (updateVertex (applyPendingUpdates s2)
        (applyPendingUpdates s2).startCell))
      (computeShortestPath (cspFuel (updateVertex (applyPendingUpdates s2)
        (applyPendingUpdates s2).startCell))
      (updateVertex (applyPendingUpdates s2)
        (applyPendingUpdates s2).startCell)).startCell = 0 := by
  set s3 := applyPendingUpdates s2 with hs3
  set s4 := updateVertex s3 s3.startCell with hs4
  set s5 := computeShortestPath (cspFuel s4) s4 with hs5
  have hst3 : s3.startCell = s2.startCell := sameCore_start (applyPendingUpdates_core s2)
  have hgl3 : s3.goalCell = s2.goalCell := sameCore_goal (applyPendingUpdates_core s2)
  have hpin : s3.startCell = s3.goalCell := hst3.trans (h2.trans hgl3.symm)
  have hrhs4 : dslRhs s4 s3.goalCell = 0 := updateVertex_pin s3 s3.startCell hpin
  have hst4 : s4.startCell = s2.startCell :=
    (sameCore_start (updateVertex_core s3 s3.startCell)).trans hst3
  have hgl4 : s4.goalCell = s2.goalCell :=
    (sameCore_goal (updateVertex_core s3 s3.startCell)).trans hgl3
  have hst5 : s5.startCell = s2.startCell :=
    (sameCore_start (computeShortestPath_core (cspFuel s4) s4)).trans hst4
  have hgl5 : s5.goalCell = s2.goalCell :=
    (sameCore_goal (computeShortestPath_core (cspFuel s4) s4)).trans hgl4
  have hrhs5 : dslRhs s5 s3.goalCell = 0 :=
    computeShortestPath_rhs_zero (cspFuel s4) s4 s3.goalCell
      (sameCore_goal (updateVertex_core s3 s3.startCell)) hrhs4
  refine ⟨hst5, hgl5, ?_⟩
  rw [hst5, h2, ← hgl3]
  exact hrhs5

/-- C10: with a map, start and goal configured, start = goal, and the goal
cell in bounds and traversable, D* Lite computePath succeeds with the single
waypoint at the centre of the start cell. -/
theorem dsl_start_eq_goal (s : DState)
    (hmap : s.hasMap = true) (hstart : s.hasStart = true) (hgoal : s.hasGoal = true)
    (heq : s.startCell = s.goalCell)
    (hin : isCellWithinBounds s.map s.goalCell = true)
    (htrav : isTraversableCell s.map s.goalCell = true) :
    (dslComputePath s).2.success = true ∧
    (dslComputePath s).2.waypoints = [center s.startCell] := by
  have hvalid : isValidStartGoal s = true := by
    unfold isValidStartGoal
    rw [if_neg (show ¬ (s.hasMap = false ∨ s.hasStart = false ∨ s.hasGoal = false) by
        simp [hmap, hstart, hgoal]),
      if_neg (show ¬ (¬ (isCellWithinBounds s.map s.startCell = true) ∨
          ¬ (isCellWithinBounds s.map s.goalCell = true)) by
        rw [heq]
        simp [hin]),
      if_neg (not_not_intro htrav),
      if_neg (show ¬ (s.startCell ≠ s.goalCell ∧
          ¬ (isTraversableCell s.map s.startCell = true)) from fun hc => hc.1 heq)]
  unfold dslComputePath
  rw [if_neg (not_not_intro hvalid)]
  dsimp only
  by_cases hinit : s.initialized = false
  · rw [if_pos hinit,
      if_neg (show ¬ (initializePlanner s).lastStart ≠ (initializePlanner s).startCell from
        fun h => h rfl)]
    obtain ⟨ha, hb, hc⟩ := dslPipeline_props (initializePlanner s) heq
    split
    · rename_i h
      rw [hc] at h
      exact absurd h (by decide)
    · split
      · rename_i h
        rw [greedyWalk_at_goal _ _ _ _ (ha.trans (heq.trans hb.symm))] at h
        exact Option.noConfusion h
      · rename_i cells h
        rw [greedyWalk_at_goal _ _ _ _ (ha.trans (heq.trans hb.symm))] at h
        injection h with h
        subst h
        exact ⟨rfl, by rw [ha]; rfl⟩
  · rw [if_neg hinit]
    by_cases hls : s.lastStart ≠ s.startCell
    · rw [if_pos hls]
      obtain ⟨ha, hb, hc⟩ := dslPipeline_props ({ s with keyModifier := s.keyModifier + heuristic s.lastStart s.startCell, lastStart := s.startCell } : DState) heq
      split
      · rename_i h
        rw [hc] at h
        exact absurd h (by decide)
      · split
        · rename_i h
          rw [greedyWalk_at_goal _ _ _ _ (ha.trans (heq.trans hb.symm))] at h
          exact Option.noConfusion h
        · rename_i cells h
          rw [greedyWalk_at_goal _ _ _ _ (ha.trans (heq.trans hb.symm))] at h
          injection h with h
          subst h
          exact ⟨rfl, by rw [ha]; rfl⟩
    · rw [if_neg hls]
      obtain ⟨ha, hb, hc⟩ := dslPipeline_props s heq
      split
      · rename_i h
        rw [hc] at h
        exact absurd h (by decide)
      · split
        · rename_i h
          rw [greedyWalk_at_goal _ _ _ _ (ha.trans (heq.trans hb.symm))] at h
          exact Option.noConfusion h
        · rename_i cells h
          rw [greedyWalk_at_goal _ _ _ _ (ha.trans (heq.trans hb.symm))] at h
          injection h with h
          subst h
          exact ⟨rfl, by rw [ha]; rfl⟩

/-- C10 witness: on a 1x1 free grid with start = goal = (0,0), computePath
succeeds with the single waypoint (0.5, 0.5). -/
theorem dsl_start_eq_goal_witness :
    (dslComputePath demoDsl).2.success = true ∧
    (dslComputePath demoDsl).2.waypoints = [center (0, 0)] :=
  dsl_start_eq_goal demoDsl rfl rfl rfl rfl (by decide) (by decide)

/-- C5 counterexample: from the state reached by setMap (5x5), setStart
(0,0), setStart (3,0) — where keyModifier is 3 — a setMap with different
dimensions resets keyModifier to 0, a strict decrease. -/
theorem keyModifier_monotone_cex :
    (applyOp cexKmState (DOp.setMapOp (gridFree 3 3))).keyModifier <
      cexKmState.keyModifier := by
  have h0 : cexKmState.keyModifier = 0 + (((3 : ℤ) : ℚ) + sqrt2 * ((0 : ℤ) : ℚ)) := rfl
  have h1 : (applyOp cexKmState (DOp.setMapOp (gridFree 3 3))).keyModifier = 0 := rfl
  rw [h0, h1]
  norm_num

end PathPlanning
